import Mathlib

namespace Phpsmith

/-!
Shallow embedding of the phpsmith expression core:
the IR printer (src/irprint/irprint.go) and the typed expression
generator (src/irgen/expr_generator.go).

The `ir`, `randutil`, `phpdoc`, scope and value-generator packages are
not part of the provided source tree; the definitions taken from them
are modelled from the specification and carry a doc comment starting
with `Modelled from the spec:`.  Everything else is a direct
translation of the Go source.

Modelling conventions:
- machine strings are byte lists (`Str`);
- the PRNG is an oracle `sigma : Nat → Nat` together with a position
  counter; `rand.Intn n` reads `sigma pos % n` and advances the
  position (every Go behaviour corresponds to some oracle);
- Go `panic` (e.g. `rand.Intn 0`) is modelled as `none`;
- `float64` values are abstracted by `FloatVal`, which distinguishes
  exactly the cases the printer distinguishes (zero, NaN, ±infinity,
  other), carrying an opaque decimal rendering for the last case.
-/

/-- Byte strings: the printer emits raw bytes. -/
abbrev Str := List Nat

/-- ASCII bytes of a Lean string literal (readability helper for statements). -/
def strBytes (s : String) : Str := s.data.map Char.toNat

/-- The closed opcode enumeration of the IR (`ir.Op`).
Modelled from the spec: §6 lists the opcode set of the absent `ir` package. -/
inductive Op
  | block | echo | ret | retVoid | contin | brk
  | boolLit | intLit | floatLit | stringLit | interpolatedString
  | index | var | name | assign | assignModify
  | add | sub | concat | nullCoalesce | bitShiftRight | bitShiftLeft
  | bitNot | bitXor | bitOr | bitAnd | negation | unaryPlus
  | exp | mod | div | mul
  | notEqual2 | notEqual3 | notFloatEqual2 | notFloatEqual3
  | spaceship | and | andWord | or | orWord | xorWord
  | equal2 | equal3 | floatEqual2 | floatEqual3
  | less | lessOrEqual | greater | greaterOrEqual
  | preInc | preDec | postInc | postDec
  | not | parens | ternary | arrayLit | call | cast
  | switch | case | dflt | while | ifOp
deriving DecidableEq, Repr

/-- Scalar kinds of the type model. -/
inductive ScalarKind
  | bool | int | float | string | mixed
deriving DecidableEq, Repr

/-- Abstraction of a Go `float64` value: the printer distinguishes
exactly zero, NaN, the two infinities and "any other value"; for the
last case we carry the decimal rendering produced by Go's `%#v`
verb (the stdlib formatting itself is outside the repository). -/
inductive FloatVal
  | zero
  | nan
  | posInf
  | negInf
  | nonzero (rep : Str)
deriving DecidableEq, Repr

/-- A literal payload stored in an enum's value set. -/
inductive LitVal
  | b (v : Bool)
  | i (v : Int)
  | f (v : FloatVal)
  | s (v : Str)
deriving DecidableEq, Repr

/-- The type model (`ir.Type`).
Modelled from the spec: §3 "Type" of the absent `ir` package. -/
inductive Ty
  | scalar (kind : ScalarKind)
  | array (elem : Ty)
  | tuple (elems : List Ty)
  | enum (valueKind : ScalarKind) (values : List LitVal)
deriving Repr

mutual

def tyDecEq : (a b : Ty) → Decidable (a = b)
  | .scalar k1, .scalar k2 =>
    if h : k1 = k2 then .isTrue (by rw [h]) else .isFalse (fun hh => by cases hh; exact h rfl)
  | .array e1, .array e2 =>
    match tyDecEq e1 e2 with
    | .isTrue h => .isTrue (by rw [h])
    | .isFalse h => .isFalse (fun hh => by cases hh; exact h rfl)
  | .tuple l1, .tuple l2 =>
    match tyDecEqList l1 l2 with
    | .isTrue h => .isTrue (by rw [h])
    | .isFalse h => .isFalse (fun hh => by cases hh; exact h rfl)
  | .enum k1 v1, .enum k2 v2 =>
    if h : k1 = k2 then
      if h2 : v1 = v2 then .isTrue (by rw [h, h2])
      else .isFalse (fun hh => by cases hh; exact h2 rfl)
    else .isFalse (fun hh => by cases hh; exact h rfl)
  | .scalar _, .array _ => .isFalse (fun hh => Ty.noConfusion hh)
  | .scalar _, .tuple _ => .isFalse (fun hh => Ty.noConfusion hh)
  | .scalar _, .enum _ _ => .isFalse (fun hh => Ty.noConfusion hh)
  | .array _, .scalar _ => .isFalse (fun hh => Ty.noConfusion hh)
  | .array _, .tuple _ => .isFalse (fun hh => Ty.noConfusion hh)
  | .array _, .enum _ _ => .isFalse (fun hh => Ty.noConfusion hh)
  | .tuple _, .scalar _ => .isFalse (fun hh => Ty.noConfusion hh)
  | .tuple _, .array _ => .isFalse (fun hh => Ty.noConfusion hh)
  | .tuple _, .enum _ _ => .isFalse (fun hh => Ty.noConfusion hh)
  | .enum _ _, .scalar _ => .isFalse (fun hh => Ty.noConfusion hh)
  | .enum _ _, .array _ => .isFalse (fun hh => Ty.noConfusion hh)
  | .enum _ _, .tuple _ => .isFalse (fun hh => Ty.noConfusion hh)

def tyDecEqList : (a b : List Ty) → Decidable (a = b)
  | [], [] => .isTrue rfl
  | [], _ :: _ => .isFalse (fun hh => by cases hh)
  | _ :: _, [] => .isFalse (fun hh => by cases hh)
  | a :: as_, b :: bs =>
    match tyDecEq a b, tyDecEqList as_ bs with
    | .isTrue h1, .isTrue h2 => .isTrue (by rw [h1, h2])
    | .isFalse h1, _ => .isFalse (fun hh => by cases hh; exact h1 rfl)
    | .isTrue _, .isFalse h2 => .isFalse (fun hh => by cases hh; exact h2 rfl)

end

instance : DecidableEq Ty := tyDecEq

def BoolType : Ty := .scalar .bool
def IntType : Ty := .scalar .int
def FloatType : Ty := .scalar .float
def StringType : Ty := .scalar .string
def MixedType : Ty := .scalar .mixed

/-- The optional literal payload of a node (`Node.Value`, a Go
interface): booleans, signed integers, floats, strings, a nested
opcode (compound assignment), or a doc-comment var tag. -/
inductive Val
  | none
  | b (v : Bool)
  | i (v : Int)
  | f (v : FloatVal)
  | s (v : Str)
  | op (o : Op)
  | varTag (v : Str)
deriving DecidableEq, Repr

/-- The uniform IR node (`ir.Node`).
Modelled from the spec: §3 "IR node" of the absent `ir` package. -/
inductive Node
  | mk (op : Op) (args : List Node) (value : Val) (type : Option Ty)

def Node.op : Node → Op
  | .mk o _ _ _ => o

def Node.args : Node → List Node
  | .mk _ a _ _ => a

def Node.value : Node → Val
  | .mk _ _ v _ => v

def Node.type : Node → Option Ty
  | .mk _ _ _ t => t

mutual

/-- Height of a node tree: one plus the maximal height of a child. -/
def Node.height : Node → Nat
  | .mk _ args _ _ => 1 + heightList args
termination_by n => 2 * sizeOf n + 1
decreasing_by simp_wf; try omega

/-- Maximal height over a list of nodes (0 for the empty list). -/
def heightList : List Node → Nat
  | [] => 0
  | n :: rest => max (Node.height n) (heightList rest)
termination_by l => 2 * sizeOf l + 1
decreasing_by all_goals (simp_wf; try omega)

end

/-- Pure node constructors of the `ir` package.
Modelled from the spec: §4.1 lists the constructors `NewIntLit`,
`NewVar`, `NewCall`, `NewParens`, `NewTernary`, `NewIndex`,
`NewName`, `NewNegation` setting `Op`, `Args`, `Value`, `Type`. -/
def NewBoolLit (v : Bool) : Node := .mk .boolLit [] (.b v) none

def NewIntLit (v : Int) : Node := .mk .intLit [] (.i v) none

def NewFloatLit (v : FloatVal) : Node := .mk .floatLit [] (.f v) none

def NewStringLit (s : Str) : Node := .mk .stringLit [] (.s s) none

def NewVar (nm : Str) (t : Ty) : Node := .mk .var [] (.s nm) (some t)

def NewName (nm : Str) : Node := .mk .name [] (.s nm) none

def NewParens (x : Node) : Node := .mk .parens [x] .none none

def NewTernary (c x y : Node) : Node := .mk .ternary [c, x, y] .none none

def NewIndex (x k : Node) : Node := .mk .index [x, k] .none none

def NewNegation (x : Node) : Node := .mk .negation [x] .none none

def NewCall (fn : Node) (args : List Node) : Node := .mk .call (fn :: args) .none none

/-- `ir.isSimpleNode`.
Modelled from the spec: §4.1 — true for literals, variables, names,
calls, already-parenthesized nodes and index expressions. -/
def isSimpleNode (n : Node) : Bool :=
  match n.op with
  | .boolLit | .intLit | .floatLit | .stringLit
  | .var | .name | .call | .parens | .index => true
  | _ => false

/-! ## The IR printer (src/irprint/irprint.go) -/

/-- The printer's statement flags (`printFlags`): need-semicolon and
need-newline bits. -/
structure PFlags where
  semi : Bool
  nl : Bool
deriving DecidableEq, Repr

def flagsStd : PFlags := ⟨true, true⟩

def flags0 : PFlags := ⟨false, false⟩

/-- `modifyOpLit`: operator spelling table used by compound
assignment; a missing key yields the Go map zero value `""`. -/
def modifyOpLit (o : Op) : Str :=
  match o with
  | .add => strBytes "+"
  | .concat => strBytes "."
  | .sub => strBytes "-"
  | .div => strBytes "/"
  | .mul => strBytes "*"
  | .exp => strBytes "**"
  | .mod => strBytes "%"
  | .bitAnd => strBytes "&"
  | .bitOr => strBytes "|"
  | .bitXor => strBytes "^"
  | .bitNot => strBytes "~"
  | .bitShiftLeft => strBytes "<<"
  | .bitShiftRight => strBytes ">>"
  | .nullCoalesce => strBytes "??"
  | _ => []

/-- Escaping of one string byte, the body of the loop of
`getStringBytes` (irprint.go:447-484). -/
def escByte (ch : Nat) : Str :=
  if ch = 13 then [92, 114]
  else if ch = 10 then [92, 110]
  else if ch = 34 then [92, 34]
  else if ch = 92 then [92, 92]
  else if ch = 0 then [92, 48, 48, 48]
  else if ch = 7 then [92, 97]
  else if ch = 8 then [92, 98]
  else if ch = 12 then [92, 102]
  else if ch = 9 then [92, 116]
  else if ch = 11 then [92, 118]
  else if ch < 32 then [92, 48, 48 + ch / 8, 48 + ch % 8]
  else [ch]

/-- `printer.getStringBytes`: escape every byte of the literal. -/
def getStringBytes (s : Str) : Str := s.flatMap escByte

/-- Decoder for the escape rules of §4.7, used to state the
round-trip property: it inverts exactly the rules `getStringBytes`
applies (`\r \n \" \\ \a \b \f \t \v` direct, `\0` followed by two
octal digits for other control bytes, everything else verbatim). -/
def unescapeBytes : Str → Option Str
  | [] => some []
  | c :: rest =>
    if c = 92 then
      match rest with
      | [] => none
      | e :: t =>
        if e = 114 then (unescapeBytes t).map (fun s => 13 :: s)
        else if e = 110 then (unescapeBytes t).map (fun s => 10 :: s)
        else if e = 34 then (unescapeBytes t).map (fun s => 34 :: s)
        else if e = 92 then (unescapeBytes t).map (fun s => 92 :: s)
        else if e = 97 then (unescapeBytes t).map (fun s => 7 :: s)
        else if e = 98 then (unescapeBytes t).map (fun s => 8 :: s)
        else if e = 102 then (unescapeBytes t).map (fun s => 12 :: s)
        else if e = 116 then (unescapeBytes t).map (fun s => 9 :: s)
        else if e = 118 then (unescapeBytes t).map (fun s => 11 :: s)
        else if e = 48 then
          match t with
          | h :: l :: t2 =>
            if 48 ≤ h ∧ h ≤ 55 ∧ 48 ≤ l ∧ l ≤ 55 then
              (unescapeBytes t2).map (fun s => ((h - 48) * 8 + (l - 48)) :: s)
            else none
          | _ => none
        else none
    else (unescapeBytes rest).map (fun s => c :: s)

/-- Rendering of a decimal integer (Go's `%#v` / `%d` on integers). -/
def intDec (i : Int) : Str := strBytes (toString i)

/-- Rendering of `ir.Type.String()`.
Modelled from the spec: §4.7 "Type is rendered by its `String()`
form: `int`, `float`, `string`, `bool`, etc."; composite renderings
are not exercised by any claim. -/
def tyString : Ty → Str
  | .scalar .bool => strBytes "bool"
  | .scalar .int => strBytes "int"
  | .scalar .float => strBytes "float"
  | .scalar .string => strBytes "string"
  | .scalar .mixed => strBytes "mixed"
  | .array _ => strBytes "array"
  | .tuple _ => strBytes "tuple"
  | .enum _ _ => strBytes "enum"

/-- Output marker for paths where the Go printer would panic (nil
dereference or failed type assertion); unreachable on IR satisfying
the arity invariants of §3. -/
def crashOut : Str := strBytes "<PANIC>"

def tyStringOpt : Option Ty → Str
  | some t => tyString t
  | none => crashOut

/-- Indentation: `p.depth` spaces (irprint.go:88-92). -/
def indentStr (d : Nat) : Str := List.replicate d 32

/-- `continue`/`break` with value 0 print bare, otherwise with the
integer depth (irprint.go:170-181). -/
def contBreakStr (kw : String) (v : Val) : Str :=
  match v with
  | .i k => if k = 0 then strBytes kw else strBytes kw ++ [32] ++ intDec k
  | _ => crashOut

/-- Float literal rendering (irprint.go:187-200): `0` → `0.0`, NaN →
`make_nan()`, ±∞ → helper calls, anything else in Go `%#v` form. -/
def floatLitStr (v : Val) : Str :=
  match v with
  | .f .zero => strBytes "0.0"
  | .f .nan => strBytes "make_nan()"
  | .f .posInf => strBytes "make_positive_inf()"
  | .f .negInf => strBytes "make_negative_inf()"
  | .f (.nonzero rep) => rep
  | _ => crashOut

def boolLitStr (v : Val) : Str :=
  match v with
  | .b true => strBytes "true"
  | .b false => strBytes "false"
  | _ => crashOut

def intLitStr (v : Val) : Str :=
  match v with
  | .i k => intDec k
  | _ => crashOut

/-- Prefix string of an assignment carrying a `*phpdoc.VarTag`
annotation (irprint.go:226-231). -/
def varTagPre (v : Val) : Str :=
  match v with
  | .varTag s => strBytes "/** @var " ++ s ++ strBytes " */ "
  | _ => []

set_option maxHeartbeats 2000000

mutual

/-- `printer.printNode` (irprint.go:148-404): the exhaustive opcode
dispatch.  Returns the emitted bytes and the statement flags; the
indentation depth `d` stands for the mutable `p.depth`. -/
def printNode : Node → Nat → Str × PFlags
  | .mk o args v t, d =>
    match o with
    | .block =>
      (strBytes "\x7b\n" ++ printSeq args (d + 2) ++ indentStr d ++ strBytes "\x7d\n", flags0)
    | .echo => (strBytes "echo " ++ printNodesSep (strBytes ", ") args d, flagsStd)
    | .ret => (strBytes "return " ++ printFirst args d, flagsStd)
    | .retVoid => (strBytes "return", flagsStd)
    | .contin => (contBreakStr "continue" v, flagsStd)
    | .brk => (contBreakStr "break" v, flagsStd)
    | .boolLit => (boolLitStr v, flagsStd)
    | .intLit => (intLitStr v, flagsStd)
    | .floatLit => (floatLitStr v, flagsStd)
    | .stringLit =>
      (match v with
       | .s s => ([34] ++ getStringBytes s ++ [34], flagsStd)
       | _ => (crashOut, flagsStd))
    | .interpolatedString => ([34] ++ printInterpParts args ++ [34], flagsStd)
    | .index => (printIndexArgs args d, flagsStd)
    | .var =>
      (match v with
       | .s s => (strBytes "$" ++ s, flagsStd)
       | _ => (crashOut, flagsStd))
    | .name =>
      (match v with
       | .s s => (s, flagsStd)
       | _ => (crashOut, flagsStd))
    | .assign => (varTagPre v ++ printBinaryArgs args (strBytes "=") d, flagsStd)
    | .assignModify =>
      (match v with
       | .op innerOp => (printBinaryArgs args (modifyOpLit innerOp ++ strBytes "=") d, flagsStd)
       | _ => (crashOut, flagsStd))
    | .add => (printBinaryArgs args (strBytes "+") d, flagsStd)
    | .sub => (printBinaryArgs args (strBytes "-") d, flagsStd)
    | .concat => (printBinaryArgs args (strBytes ".") d, flagsStd)
    | .nullCoalesce => (printBinaryArgs args (strBytes "??") d, flagsStd)
    | .bitShiftRight => (printBinaryArgs args (strBytes ">>") d, flagsStd)
    | .bitShiftLeft => (printBinaryArgs args (strBytes "<<") d, flagsStd)
    | .bitNot => (printPre args (strBytes "~") d, flagsStd)
    | .bitXor => (printBinaryArgs args (strBytes "^") d, flagsStd)
    | .bitOr => (printBinaryArgs args (strBytes "|") d, flagsStd)
    | .bitAnd => (printBinaryArgs args (strBytes "&") d, flagsStd)
    | .negation => (printPre args (strBytes "-") d, flagsStd)
    | .unaryPlus => (printPre args (strBytes "+") d, flagsStd)
    | .exp => (printBinaryArgs args (strBytes "**") d, flagsStd)
    | .mod =>
      (if t = some FloatType then printSimpleCall (strBytes "_safe_float_mod") args d
       else printSimpleCall (strBytes "_safe_int_mod") args d, flagsStd)
    | .div =>
      (if t = some FloatType then printSimpleCall (strBytes "_safe_float_div") args d
       else printSimpleCall (strBytes "_safe_int_div") args d, flagsStd)
    | .mul => (printBinaryArgs args (strBytes "*") d, flagsStd)
    | .notEqual2 => (printBinaryArgs args (strBytes "!=") d, flagsStd)
    | .notFloatEqual2 => (printSimpleCall (strBytes "float_neq2") args d, flagsStd)
    | .notEqual3 => (printBinaryArgs args (strBytes "!==") d, flagsStd)
    | .notFloatEqual3 => (printSimpleCall (strBytes "float_neq3") args d, flagsStd)
    | .spaceship => (printBinaryArgs args (strBytes "<=>") d, flagsStd)
    | .andWord => (printBinaryArgs args (strBytes "and") d, flagsStd)
    | .and => (printBinaryArgs args (strBytes "&&") d, flagsStd)
    | .xorWord => (printBinaryArgs args (strBytes "xor") d, flagsStd)
    | .orWord => (printBinaryArgs args (strBytes "or") d, flagsStd)
    | .or => (printBinaryArgs args (strBytes "||") d, flagsStd)
    | .equal2 => (printBinaryArgs args (strBytes "==") d, flagsStd)
    | .floatEqual2 => (printSimpleCall (strBytes "float_eq2") args d, flagsStd)
    | .equal3 => (printBinaryArgs args (strBytes "===") d, flagsStd)
    | .floatEqual3 => (printSimpleCall (strBytes "float_eq3") args d, flagsStd)
    | .less => (printBinaryArgs args (strBytes "<") d, flagsStd)
    | .lessOrEqual => (printBinaryArgs args (strBytes "<=") d, flagsStd)
    | .greater => (printBinaryArgs args (strBytes ">") d, flagsStd)
    | .greaterOrEqual => (printBinaryArgs args (strBytes ">=") d, flagsStd)
    | .preInc => (printPre args (strBytes "++") d, flagsStd)
    | .preDec => (printPre args (strBytes "--") d, flagsStd)
    | .postInc => (printPost args (strBytes "++") d, flagsStd)
    | .postDec => (printPost args (strBytes "--") d, flagsStd)
    | .not => (printPre args (strBytes "!") d, flagsStd)
    | .parens => (strBytes "(" ++ printFirst args d ++ strBytes ")", flagsStd)
    | .ternary => (printTernaryArgs args d, flagsStd)
    | .arrayLit =>
      (if args.isEmpty then strBytes "array()"
       else strBytes "array(\n" ++ printArrayElems args (d + 2)
            ++ indentStr d ++ strBytes ")", flagsStd)
    | .call => (printCallArgs args d, flagsStd)
    | .cast => (strBytes "(" ++ tyStringOpt t ++ strBytes ")" ++ printFirst args d, flagsStd)
    | .switch => (printSwitchArgs args d, flags0)
    | .while => printCond "while (" args d
    | .ifOp => printCond "if (" args d
    | .case => ([], flagsStd)
    | .dflt => ([], flagsStd)
termination_by n _ => 2 * sizeOf n + 1
decreasing_by all_goals (simp_wf; try omega)

/-- `printer.printSeq` (irprint.go:134-145). -/
def printSeq : List Node → Nat → Str
  | [], _ => []
  | stmt :: rest, d =>
    let (s, f) := printNode stmt d
    indentStr d ++ s ++ (if f.semi then [59] else []) ++ (if f.nl then [10] else [])
      ++ printSeq rest d
termination_by l _ => 2 * sizeOf l + 1
decreasing_by all_goals (simp_wf; try omega)

/-- `printer.printNodes` (irprint.go:438-445): separator before every
element but the first. -/
def printNodesSep : Str → List Node → Nat → Str
  | _, [], _ => []
  | _, [n], d => (printNode n d).1
  | sep, n :: rest, d => (printNode n d).1 ++ sep ++ printNodesSep sep rest d
termination_by _ l _ => 2 * sizeOf l
decreasing_by all_goals (simp_wf; try omega)

/-- `n.Args[0]` in a printing rule; the Go code would panic on an
empty argument list. -/
def printFirst : List Node → Nat → Str
  | x :: _, d => (printNode x d).1
  | [], _ => crashOut
termination_by l _ => 2 * sizeOf l + 1
decreasing_by all_goals (simp_wf; try omega)

/-- `printer.printBinary` (irprint.go:432-436). -/
def printBinaryArgs : List Node → Str → Nat → Str
  | [x, y], opStr, d => (printNode x d).1 ++ [32] ++ opStr ++ [32] ++ (printNode y d).1
  | _, _, _ => crashOut
termination_by l _ _ => 2 * sizeOf l + 1
decreasing_by all_goals (simp_wf; try omega)

/-- `printer.printUnaryPrefix` (irprint.go:422-425). -/
def printPre : List Node → Str → Nat → Str
  | [x], opStr, d => opStr ++ (printNode x d).1
  | _, _, _ => crashOut
termination_by l _ _ => 2 * sizeOf l + 1
decreasing_by all_goals (simp_wf; try omega)

/-- `printer.printUnaryPostfix` (irprint.go:427-430). -/
def printPost : List Node → Str → Nat → Str
  | [x], opStr, d => (printNode x d).1 ++ opStr
  | _, _, _ => crashOut
termination_by l _ _ => 2 * sizeOf l + 1
decreasing_by all_goals (simp_wf; try omega)

/-- `printer.printSimpleCall` (irprint.go:406-408): the callee is a
fresh `Name` node, whose printed form is its name string. -/
def printSimpleCall : Str → List Node → Nat → Str
  | nm, args, d => nm ++ strBytes "(" ++ printNodesSep (strBytes ", ") args d ++ strBytes ")"
termination_by _ l _ => 2 * sizeOf l + 1
decreasing_by all_goals (simp_wf; try omega)

/-- The `OpCall` rule: `printCall(n.Args[0], n.Args[1:])`. -/
def printCallArgs : List Node → Nat → Str
  | fn :: rest, d =>
    (printNode fn d).1 ++ strBytes "(" ++ printNodesSep (strBytes ", ") rest d ++ strBytes ")"
  | [], _ => crashOut
termination_by l _ => 2 * sizeOf l + 1
decreasing_by all_goals (simp_wf; try omega)

/-- The `OpIndex` rule (irprint.go:215-219). -/
def printIndexArgs : List Node → Nat → Str
  | [x, k], d => (printNode x d).1 ++ strBytes "[" ++ (printNode k d).1 ++ strBytes "]"
  | _, _ => crashOut
termination_by l _ => 2 * sizeOf l + 1
decreasing_by all_goals (simp_wf; try omega)

/-- The `OpTernary` rule (irprint.go:332-337). -/
def printTernaryArgs : List Node → Nat → Str
  | [c, x, y], d =>
    (printNode c d).1 ++ strBytes " ? " ++ (printNode x d).1
      ++ strBytes " : " ++ (printNode y d).1
  | _, _ => crashOut
termination_by l _ => 2 * sizeOf l + 1
decreasing_by all_goals (simp_wf; try omega)

/-- Interpolated-string parts (irprint.go:204-213): a `Var` part
renders as `{$name}`, any other part as escaped string bytes. -/
def printInterpParts : List Node → Str
  | [] => []
  | part :: rest =>
    (match part with
     | .mk .var _ (.s nm) _ => strBytes "\x7b$" ++ nm ++ strBytes "\x7d"
     | .mk _ _ (.s s) _ => getStringBytes s
     | _ => crashOut)
      ++ printInterpParts rest
termination_by l => 2 * sizeOf l + 1
decreasing_by all_goals (simp_wf; try omega)

/-- Non-empty `OpArrayLit` body (irprint.go:343-352). -/
def printArrayElems : List Node → Nat → Str
  | [], _ => []
  | e :: rest, d => indentStr d ++ (printNode e d).1 ++ strBytes ",\n" ++ printArrayElems rest d
termination_by l _ => 2 * sizeOf l + 1
decreasing_by all_goals (simp_wf; try omega)

/-- The `OpSwitch` rule (irprint.go:364-388). -/
def printSwitchArgs : List Node → Nat → Str
  | disc :: arms, d =>
    strBytes "switch (" ++ (printNode disc d).1 ++ strBytes ") \x7b\n"
      ++ printSwitchArms arms (d + 2) ++ indentStr d ++ strBytes "\x7d\n"
  | [], _ => crashOut
termination_by l _ => 2 * sizeOf l + 1
decreasing_by all_goals (simp_wf; try omega)

/-- The case/default arms of a switch: indent at the outer case
depth, arm bodies two deeper. -/
def printSwitchArms : List Node → Nat → Str
  | [], _ => []
  | c :: rest, d =>
    indentStr d
      ++ (match c with
          | .mk .case cargs _ _ =>
            (match cargs with
             | cv :: body =>
               strBytes "case " ++ (printNode cv (d + 2)).1 ++ strBytes ":\n"
                 ++ printSeq body (d + 2)
             | [] => crashOut)
          | .mk _ cargs _ _ => strBytes "default:\n" ++ printSeq cargs (d + 2))
      ++ printSwitchArms rest d
termination_by l _ => 2 * sizeOf l + 1
decreasing_by all_goals (simp_wf; try omega)

/-- The `OpWhile` / `OpIf` rules: print the head, then the body,
propagating the body's flags (irprint.go:390-400). -/
def printCond : String → List Node → Nat → Str × PFlags
  | kw, [c, b], d =>
    let (bs, bf) := printNode b d
    (strBytes kw ++ (printNode c d).1 ++ strBytes ") " ++ bs, bf)
  | _, _, _ => (crashOut, flagsStd)
termination_by _ l _ => 2 * sizeOf l + 1
decreasing_by all_goals (simp_wf; try omega)

end

/-- The printer configuration (`irprint.Config`): only the optional
PRNG reserved for a future randomized-whitespace mode. -/
structure Config where
  rand : Option (Nat → Nat)

/-- A root node (`ir.RootNode`).
Modelled from the spec: §3 "Root node" of the absent `ir` package
(`FuncDecl{tags, name, params, body}`, `Require{path}`, `Stmt{expr}`). -/
inductive RootNode
  | funcDecl (tags : List (Str × Str)) (name : Str) (paramNames : List Str) (body : Node)
  | require (path : Str)
  | stmt (x : Node)

/-- Doc-comment block and header of `printer.printFuncDecl`
(irprint.go:111-132). -/
def printFuncDecl (tags : List (Str × Str)) (nm : Str) (params : List Str) (body : Node) : Str :=
  (if tags.isEmpty then []
   else strBytes "/**\n"
     ++ tags.flatMap (fun tg => strBytes " * @" ++ tg.1 ++ [32] ++ tg.2 ++ [10])
     ++ strBytes " */\n")
    ++ strBytes "function " ++ nm ++ strBytes "("
    ++ (match params with
        | [] => []
        | p :: rest => strBytes "$" ++ p ++ rest.flatMap (fun q => strBytes ", $" ++ q))
    ++ strBytes ") " ++ (printNode body 0).1 ++ [10]

/-- `printer.printRootNode` (irprint.go:94-109). -/
def printRootNode : RootNode → Str
  | .funcDecl tags nm params body => printFuncDecl tags nm params body
  | .require path => strBytes "require_once __DIR__ . '/" ++ path ++ strBytes "';\n"
  | .stmt x =>
    let (s, f) := printNode x 0
    s ++ (if f.semi then [59] else []) ++ (if f.nl then [10] else [])

/-- `irprint.FprintNode` (irprint.go:58-65): builds a printer from the
config and prints the node; no printer method ever reads the config,
which is only stored (the Rand field is reserved, irprint.go:16-24). -/
def FprintNode (_config : Config) (n : Node) : Str := (printNode n 0).1

/-- `irprint.SprintNode` (irprint.go:52-56). -/
def SprintNode (n : Node) : Str := FprintNode ⟨none⟩ n

/-- `irprint.FprintRootNode` (irprint.go:43-50). -/
def FprintRootNode (_config : Config) (n : RootNode) : Str := printRootNode n


/-! ## The typed expression generator (src/irgen/expr_generator.go) -/

/-- A function parameter of a catalogued intrinsic (`ir.FuncType`
param). Modelled from the spec: §3 `Func { params: [{type, strict}] }`
of the absent `ir` package; the parameter name only appears in
function-declaration printing. -/
structure FuncParam where
  name : Str
  type : Ty
  strict : Bool

/-- A catalogued intrinsic (`ir.FuncType`).
Modelled from the spec: §3 `Func { name, params, min_args, result,
need_cast }` of the absent `ir` package. -/
structure FuncType where
  name : Str
  params : List FuncParam
  minArgsNum : Nat
  result : Ty
  needCast : Bool

/-- A scope variable. Modelled from the spec: §4.4 (the scope package
is absent). -/
structure ScopeVar where
  name : Str
  ty : Ty

/-- `scope.FindVarOfType`.
Modelled from the spec: §4.4 — returns a variable whose declared type
is structurally equal to the requested one, or nothing. -/
def findVarOfType (scope : List ScopeVar) (t : Ty) : Option Node :=
  match scope with
  | [] => none
  | v :: rest => if v.ty = t then some (NewVar v.name v.ty) else findVarOfType rest t

/-- The symbol table: four buckets of intrinsics by result kind.
Modelled from the spec: §4.3 (the symbol-table package is absent). -/
structure SymbolTable where
  boolFuncs : List FuncType
  intFuncs : List FuncType
  floatFuncs : List FuncType
  stringFuncs : List FuncType

/-- The read-only context of one generator run: the PRNG oracle, the
scope and the symbol table (fields of `exprGenerator` that are never
mutated during expression synthesis). -/
structure GenCtx where
  sigma : Nat → Nat
  scope : List ScopeVar
  symtab : SymbolTable

/-- The mutable state of one generator run: the PRNG position and the
`exprDepth` counter. -/
structure GenSt where
  pos : Nat
  exprDepth : Nat
deriving DecidableEq, Repr

/-- `rand.Intn n`: `none` models the Go panic on `n = 0`. -/
def intn (ctx : GenCtx) (n : Nat) (st : GenSt) : Option (Nat × GenSt) :=
  if n = 0 then none else some (ctx.sigma st.pos % n, ⟨st.pos + 1, st.exprDepth⟩)

/-- `randutil.IntRange(rand, lo, hi)` (inclusive bounds).
Modelled from the spec: the `randutil` package is absent; §4.6 uses
inclusive ranges such as `numArgs ∈ [F.min_args, len(F.params)]`;
an empty range panics (`none`), like `rand.Intn` of a non-positive
argument. -/
def intRange (ctx : GenCtx) (lo hi : Nat) (st : GenSt) : Option (Nat × GenSt) :=
  if hi < lo then none
  else (intn ctx (hi - lo + 1) st).map (fun p => (lo + p.1, p.2))

/-- `randutil.Bool(rand)`.
Modelled from the spec: a uniform boolean; one oracle draw decides it. -/
def randBool (ctx : GenCtx) (st : GenSt) : Bool × GenSt :=
  (ctx.sigma st.pos % 2 = 0, ⟨st.pos + 1, st.exprDepth⟩)

/-- A uniform pick from a fixed non-empty curated list.
Modelled from the spec: §4.2 value sets; only applied to the concrete
non-empty lists below. -/
def listPick (l : List α) (dflt : α) (ctx : GenCtx) (st : GenSt) : α × GenSt :=
  (l.getD (ctx.sigma st.pos % l.length) dflt, ⟨st.pos + 1, st.exprDepth⟩)

/-- Curated signed-integer edge cases of the value generator.
Modelled from the spec: §4.2 `IntValue` curated set. -/
def intLitValues : List Int :=
  [0, -1, 255, -255, 9223372036854775807, -9223372036854775808]

/-- Curated float values of the value generator.
Modelled from the spec: §4.2 `FloatValue` curated set including the
special values distinguished at print time. -/
def floatLitValues : List FloatVal :=
  [.zero, .nonzero (strBytes "-1"), .nonzero (strBytes "2.51"), .nan, .posInf, .negInf]

/-- Curated strings of the value generator.
Modelled from the spec: §4.2 `StringValue` curated set (empty,
embedded NUL, plain, newline-containing). -/
def stringLitValues : List Str :=
  [[], [0], strBytes "simple string", strBytes "1\n2"]

/-- `valueGenerator.BoolValue`.
Modelled from the spec: §4.2 — uniform boolean. -/
def boolValueGen (ctx : GenCtx) (st : GenSt) : Bool × GenSt := randBool ctx st

/-- `valueGenerator.IntValue`.
Modelled from the spec: §4.2 — the 8-way mix of small positives,
their negations, a full 63-bit positive and the curated edge set. -/
def intValueGen (ctx : GenCtx) (st : GenSt) : Int × GenSt :=
  if ctx.sigma st.pos % 8 ≤ 1 then
    ((ctx.sigma (st.pos + 1) % 65535 : Nat), ⟨st.pos + 2, st.exprDepth⟩)
  else if ctx.sigma st.pos % 8 ≤ 3 then
    (-(ctx.sigma (st.pos + 1) % 65535 : Nat), ⟨st.pos + 2, st.exprDepth⟩)
  else if ctx.sigma st.pos % 8 = 4 then
    ((ctx.sigma (st.pos + 1) % 9223372036854775808 : Nat), ⟨st.pos + 2, st.exprDepth⟩)
  else listPick intLitValues 0 ctx ⟨st.pos + 1, st.exprDepth⟩

/-- `valueGenerator.FloatValue`.
Modelled from the spec: §4.2 — a pick from the curated float set. -/
def floatValueGen (ctx : GenCtx) (st : GenSt) : FloatVal × GenSt :=
  listPick floatLitValues .zero ctx st

/-- `valueGenerator.StringValue`.
Modelled from the spec: §4.2 — a pick from the curated string set. -/
def stringValueGen (ctx : GenCtx) (st : GenSt) : Str × GenSt :=
  listPick stringLitValues [] ctx st

/-- The four literal kinds a channel terminal can produce. -/
inductive LitKind
  | bool | int | float | string
deriving DecidableEq, Repr

/-- The five typed channels (`condChoices` … `stringChoices`). -/
inductive ChanId
  | cond | bool | int | float | string
deriving DecidableEq, Repr

/-- One weighted option of a channel: the closures installed by
`newExprGenerator` (expr_generator.go:110-169), reified as data so
that `chooseExpr` can dispatch on them. -/
inductive OptKind
  | cmp (op : Op)
  | binary (op : Op) (hint : Option Ty) (operand : ChanId)
  | binCast (op : Op) (hint : Ty) (castTy : Ty) (operand : ChanId)
  | unary (op : Op) (operand : ChanId)
  | ternaryOf (c : ChanId)
  | litOf (k : LitKind)
  | varOf (k : LitKind)
  | callOf (k : LitKind)
  | negationInt
  | castTo (t : Ty)
  | interp
  | strIndex
deriving DecidableEq, Repr

/-- A channel option: frequency, generator, optional option-local
fallback (`exprChoice`). -/
structure COpt where
  freq : Nat
  gen : OptKind
  fb : Option OptKind
deriving DecidableEq, Repr

/-- `g.condChoices` (expr_generator.go:110-119). -/
def condOptions : List COpt :=
  [⟨3, .cmp .equal2, none⟩,
   ⟨3, .cmp .equal3, none⟩,
   ⟨4, .binary .and none .bool, none⟩,
   ⟨4, .binary .or none .bool, none⟩,
   ⟨4, .unary .not .cond, none⟩,
   ⟨5, .varOf .bool, some (.litOf .bool)⟩,
   ⟨6, .callOf .bool, none⟩,
   ⟨1, .litOf .bool, none⟩]

/-- `g.boolChoices` (expr_generator.go:121-130). -/
def boolOptions : List COpt :=
  [⟨1, .cmp .equal2, none⟩,
   ⟨1, .cmp .equal3, none⟩,
   ⟨3, .binary .and none .bool, none⟩,
   ⟨3, .binary .or none .bool, none⟩,
   ⟨4, .unary .not .cond, none⟩,
   ⟨6, .varOf .bool, some (.litOf .bool)⟩,
   ⟨3, .litOf .bool, none⟩,
   ⟨4, .callOf .bool, none⟩]

/-- `g.intChoices` (expr_generator.go:132-148). -/
def intOptions : List COpt :=
  [⟨1, .ternaryOf .int, none⟩,
   ⟨2, .binCast .add IntType IntType .int, none⟩,
   ⟨2, .binary .sub (some IntType) .int, none⟩,
   ⟨1, .binCast .mul IntType IntType .int, none⟩,
   ⟨1, .binary .bitAnd (some IntType) .int, none⟩,
   ⟨1, .binary .bitOr (some IntType) .int, none⟩,
   ⟨1, .binary .bitXor (some IntType) .int, none⟩,
   ⟨1, .binCast .exp IntType IntType .int, none⟩,
   ⟨1, .binCast .div IntType IntType .int, none⟩,
   ⟨1, .binCast .mod IntType IntType .int, none⟩,
   ⟨2, .negationInt, none⟩,
   ⟨2, .castTo IntType, none⟩,
   ⟨7, .callOf .int, none⟩,
   ⟨4, .litOf .int, none⟩,
   ⟨6, .varOf .int, some (.litOf .int)⟩]

/-- `g.floatChoices` (expr_generator.go:150-159). -/
def floatOptions : List COpt :=
  [⟨1, .ternaryOf .float, none⟩,
   ⟨2, .binary .add (some FloatType) .float, none⟩,
   ⟨2, .binary .sub (some FloatType) .float, none⟩,
   ⟨1, .binary .div (some FloatType) .float, none⟩,
   ⟨1, .binary .mul (some FloatType) .float, none⟩,
   ⟨5, .callOf .float, none⟩,
   ⟨6, .varOf .float, some (.litOf .float)⟩,
   ⟨5, .litOf .float, none⟩]

/-- `g.stringChoices` (expr_generator.go:161-169). -/
def stringOptions : List COpt :=
  [⟨2, .castTo StringType, none⟩,
   ⟨5, .callOf .string, none⟩,
   ⟨4, .binary .concat (some StringType) .string, none⟩,
   ⟨5, .litOf .string, none⟩,
   ⟨5, .interp, none⟩,
   ⟨6, .varOf .string, some (.litOf .string)⟩,
   ⟨2, .strIndex, some .interp⟩]

def chanOptions : ChanId → List COpt
  | .cond => condOptions
  | .bool => boolOptions
  | .int => intOptions
  | .float => floatOptions
  | .string => stringOptions

/-- The list-level fallback passed to `makeChoicesList` for each
channel: `boolLit`, `boolLit`, `intLit`, `floatLit`, `stringLit`. -/
def chanFallback : ChanId → LitKind
  | .cond => .bool
  | .bool => .bool
  | .int => .int
  | .float => .float
  | .string => .string

/-- `makeChoicesList`'s `indexMap`: option index `i` repeated
`freq_i` times (expr_generator.go:52-64). -/
def mkIndexMap (opts : List COpt) : List Nat :=
  (opts.enum.map (fun p => List.replicate p.2.freq p.1)).flatten

/-- The scalar-kind→type table `scalarTypes`
(expr_generator.go:532-537). -/
def scalarTypes : List Ty := [BoolType, IntType, FloatType, StringType]

/-- `boolLit` / `intLit` / `floatLit` / `stringLit`
(expr_generator.go:370-380 and 405-407): literal terminals; total. -/
def litGen (ctx : GenCtx) (k : LitKind) (st : GenSt) : Node × GenSt :=
  match k with
  | .bool => let (v, st') := boolValueGen ctx st; (NewBoolLit v, st')
  | .int => let (v, st') := intValueGen ctx st; (NewIntLit v, st')
  | .float => let (v, st') := floatValueGen ctx st; (NewFloatLit v, st')
  | .string => let (v, st') := stringValueGen ctx st; (NewStringLit v, st')

/-- `g.maybeAddParens` (expr_generator.go:459-464). -/
def maybeAddParens (n : Node) : Node :=
  if isSimpleNode n then n else NewParens n

/-- The scalar type corresponding to a channel terminal kind
(`boolVar` … `stringVar`, expr_generator.go:417-420). -/
def kindType : LitKind → Ty
  | .bool => BoolType
  | .int => IntType
  | .float => FloatType
  | .string => StringType

/-- The channel dispatched to by `GenerateValueOfType` for a scalar
kind (expr_generator.go:242-256). -/
def kindChan : LitKind → ChanId
  | .bool => .bool
  | .int => .int
  | .float => .float
  | .string => .string

/-- The symbol-table bucket read by `boolCall` … `stringCall`
(expr_generator.go:443-457). -/
def SymbolTable.bucket (tab : SymbolTable) : LitKind → List FuncType
  | .bool => tab.boolFuncs
  | .int => tab.intFuncs
  | .float => tab.floatFuncs
  | .string => tab.stringFuncs

/-- The opcode replacement inside `cmpOpGenerator`
(expr_generator.go:71-83): when the picked operand type is the Float
scalar, the equality opcode is replaced by its Float-specific
variant. -/
def cmpOpRewrite (op : Op) (typ : Ty) : Op :=
  match typ with
  | .scalar .float =>
    match op with
    | .equal2 => .floatEqual2
    | .equal3 => .floatEqual3
    | .notEqual2 => .notFloatEqual2
    | .notEqual3 => .notFloatEqual3
    | _ => op
  | _ => op

/-- `g.interpolatedString` parts loop (expr_generator.go:388-401). -/
def interpParts (ctx : GenCtx) : Nat → GenSt → List Node × GenSt
  | 0, st => ([], st)
  | n + 1, st =>
    let (useVar, st1) := randBool ctx st
    let (part, st2) :=
      if useVar then
        let (t, st1a) := listPick scalarTypes BoolType ctx st1
        match findVarOfType ctx.scope t with
        | some v => (v, st1a)
        | none => let (s, st1b) := stringValueGen ctx st1a; (NewStringLit s, st1b)
      else
        let (s, st1a) := stringValueGen ctx st1; (NewStringLit s, st1a)
    let (rest, st3) := interpParts ctx n st2
    (part :: rest, st3)

/-- `g.interpolatedString` (expr_generator.go:382-403): 3..8 parts,
each a scalar variable when available or a string literal. -/
def interpGen (ctx : GenCtx) (st : GenSt) : Node × GenSt :=
  let numParts := 3 + ctx.sigma st.pos % 6
  let st1 : GenSt := ⟨st.pos + 1, st.exprDepth⟩
  let (parts, st2) := interpParts ctx numParts st1
  (.mk .interpolatedString parts .none none, st2)

/-- Depth bookkeeping: `g.exprDepth++` on entry to a compound
producer; the matching deferred decrement is modelled by restoring
the caller's depth in the returned state. -/
def GenSt.bump (st : GenSt) : GenSt := ⟨st.pos, st.exprDepth + 1⟩

mutual

/-- `g.GenerateValueOfType` (expr_generator.go:240-285).  The fuel
argument only bounds the recursion of the model; every recursive
call passes the predecessor. -/
def GenerateValueOfType : Nat → GenCtx → Ty → GenSt → Option (Node × GenSt)
  | 0, _, _, _ => none
  | fuel + 1, ctx, ty, st =>
    match ty with
    | .scalar .bool => chooseExpr fuel ctx .bool st
    | .scalar .int => chooseExpr fuel ctx .int st
    | .scalar .float => chooseExpr fuel ctx .float st
    | .scalar .string => chooseExpr fuel ctx .string st
    | .scalar .mixed => mixedValue fuel ctx true st
    | .enum vk vals =>
      match (if ctx.sigma st.pos % 10 < 6
             then findVarOfType ctx.scope (.enum vk vals) else none) with
      | some v => some (v, ⟨st.pos + 1, st.exprDepth⟩)
      | none =>
        match intn ctx vals.length ⟨st.pos + 1, st.exprDepth⟩ with
        | none => none
        | some (vi, st2) =>
          match vk, vals.get? vi with
          | .int, some (.i v) => some (NewIntLit v, st2)
          | .float, some (.f v) => some (NewFloatLit v, st2)
          | .string, some (.s v) => some (NewStringLit v, st2)
          | _, _ => none
    | .array elem => arrayValue fuel ctx elem st
    | .tuple elems => tupleValue fuel ctx elems st

/-- `g.chooseExpr` (expr_generator.go:287-309): short-circuit to the
list-level fallback above the depth cap, otherwise draw a weighted
option via the index map, add redundant parens with probability
4/10, and restore the depth.  The Go retry loop re-draws only when an
option and its fallback both yield nothing; in the five channels
every fallible option carries an infallible fallback, so that branch
is unreachable and is modelled as `none` (see
`chooseExpr_isSome_of_wf`). -/
def chooseExpr : Nat → GenCtx → ChanId → GenSt → Option (Node × GenSt)
  | 0, _, _, _ => none
  | fuel + 1, ctx, ch, st =>
    if st.exprDepth > 10 then some (litGen ctx (chanFallback ch) st)
    else
      match intn ctx (mkIndexMap (chanOptions ch)).length st.bump with
      | none => none
      | some (probe, st2) =>
        match (mkIndexMap (chanOptions ch)).get? probe with
        | none => none
        | some i =>
          match (chanOptions ch).get? i with
          | none => none
          | some o =>
            match runOptionFb fuel ctx o st2 with
            | none => none
            | some (n, st3) =>
              match intn ctx 10 st3 with
              | none => none
              | some (roll, st4) =>
                some (if roll ≤ 3 then NewParens n else n, ⟨st4.pos, st.exprDepth⟩)

/-- One loop iteration of `chooseExpr`: run the drawn option's
`generate`, then its option-local `fallback` if the result was nil
(expr_generator.go:294-300). -/
def runOptionFb : Nat → GenCtx → COpt → GenSt → Option (Node × GenSt)
  | 0, _, _, _ => none
  | fuel + 1, ctx, o, st =>
    match runGen fuel ctx o.gen st with
    | none => none
    | some (some n, st1) => some (n, st1)
    | some (none, st1) =>
      match o.fb with
      | none => none
      | some fbk =>
        match runGen fuel ctx fbk st1 with
        | none => none
        | some (some n, st2) => some (n, st2)
        | some (none, _) => none

/-- The body of one option generator closure
(expr_generator.go:66-108, 351-530): the inner `Option Node` is the
possibly-nil `*ir.Node` the closure returns; the outer `none` models
a panic or fuel exhaustion. -/
def runGen : Nat → GenCtx → OptKind → GenSt → Option (Option Node × GenSt)
  | 0, _, _, _ => none
  | fuel + 1, ctx, o, st =>
    match o with
    | .cmp op =>
      match intn ctx scalarTypes.length st with
      | none => none
      | some (ti, st1) =>
        match GenerateValueOfType fuel ctx (scalarTypes.getD ti BoolType) st1 with
        | none => none
        | some (x, st2) =>
          match GenerateValueOfType fuel ctx (scalarTypes.getD ti BoolType) st2 with
          | none => none
          | some (y, st3) =>
            some (some (.mk (cmpOpRewrite op (scalarTypes.getD ti BoolType))
              [maybeAddParens x, maybeAddParens y] .none none), st3)
    | .binary op hint chan =>
      match chooseExpr fuel ctx chan st with
      | none => none
      | some (x, st1) =>
        match chooseExpr fuel ctx chan st1 with
        | none => none
        | some (y, st2) =>
          some (some (.mk op [maybeAddParens x, maybeAddParens y] .none hint), st2)
    | .binCast op hint castTy chan =>
      match chooseExpr fuel ctx chan st with
      | none => none
      | some (x, st1) =>
        match chooseExpr fuel ctx chan st1 with
        | none => none
        | some (y, st2) =>
          some (some (.mk .cast
            [maybeAddParens (.mk op [maybeAddParens x, maybeAddParens y] .none (some hint))]
            .none (some castTy)), st2)
    | .unary op chan =>
      match chooseExpr fuel ctx chan st with
      | none => none
      | some (x, st1) => some (some (.mk op [maybeAddParens x] .none none), st1)
    | .ternaryOf c =>
      match chooseExpr fuel ctx .cond st with
      | none => none
      | some (cond, st1) =>
        match chooseExpr fuel ctx c st1 with
        | none => none
        | some (x, st2) =>
          match chooseExpr fuel ctx c st2 with
          | none => none
          | some (y, st3) =>
            some (some (NewParens (NewTernary cond
              (if ctx.sigma st3.pos % 2 = 0 then NewParens x else x)
              (if ctx.sigma (st3.pos + 1) % 2 = 0 then NewParens y else y))),
              ⟨st3.pos + 2, st3.exprDepth⟩)
    | .litOf k => some (some (litGen ctx k st).1, (litGen ctx k st).2)
    | .varOf k => some (findVarOfType ctx.scope (kindType k), st)
    | .callOf k =>
      match intn ctx (ctx.symtab.bucket k).length st with
      | none => none
      | some (fi, st1) =>
        match (ctx.symtab.bucket k).get? fi with
        | none => none
        | some fn =>
          match callOfType fuel ctx fn st1 with
          | none => none
          | some (n, st2) => some (some n, st2)
    | .negationInt =>
      match chooseExpr fuel ctx .int st with
      | none => none
      | some (x, st1) => some (some (NewNegation (maybeAddParens x)), st1)
    | .castTo t =>
      match mixedValue fuel ctx false st with
      | none => none
      | some (a, st1) => some (some (.mk .cast [maybeAddParens a] .none (some t)), st1)
    | .interp => some (some (interpGen ctx st).1, (interpGen ctx st).2)
    | .strIndex =>
      match findVarOfType ctx.scope StringType with
      | none => some (none, st)
      | some lv =>
        match intRange ctx 0 10 st with
        | none => none
        | some (r, st1) =>
          if r > 2 then
            match chooseExpr fuel ctx .int st1 with
            | none => none
            | some (key, st2) =>
              some (some (.mk .cast [NewIndex (maybeAddParens lv) key]
                .none (some StringType)), st2)
          else
            some (some (.mk .cast [NewIndex (maybeAddParens lv) (NewIntLit (-1))]
              .none (some StringType)), st1)

/-- `g.callOfType` (expr_generator.go:422-441). -/
def callOfType : Nat → GenCtx → FuncType → GenSt → Option (Node × GenSt)
  | 0, _, _, _ => none
  | fuel + 1, ctx, fn, st =>
    match intRange ctx fn.minArgsNum fn.params.length st.bump with
    | none => none
    | some (numArgs, st2) =>
      match genArgs fuel ctx (fn.params.take numArgs) st2 with
      | none => none
      | some (args, st3) =>
        some (if fn.needCast
              then Node.mk .cast [NewCall (NewName fn.name) args] .none (some fn.result)
              else NewCall (NewName fn.name) args,
          ⟨st3.pos, st.exprDepth⟩)

/-- The argument loop of `callOfType` (expr_generator.go:428-434):
generate each argument at its parameter type, casting when the
parameter is strict. -/
def genArgs : Nat → GenCtx → List FuncParam → GenSt → Option (List Node × GenSt)
  | 0, _, _, _ => none
  | _ + 1, _, [], st => some ([], st)
  | fuel + 1, ctx, p :: ps, st =>
    match GenerateValueOfType fuel ctx p.type st with
    | none => none
    | some (a, st1) =>
      match genArgs fuel ctx ps st1 with
      | none => none
      | some (rest, st2) =>
        some ((if p.strict
               then Node.mk .cast [maybeAddParens a] .none (some p.type)
               else a) :: rest, st2)

/-- `g.arrayValue` (expr_generator.go:490-504). -/
def arrayValue : Nat → GenCtx → Ty → GenSt → Option (Node × GenSt)
  | 0, _, _, _ => none
  | fuel + 1, ctx, elem, st =>
    match intRange ctx 1 (if st.bump.exprDepth ≥ 10 then 2 else 4) st.bump with
    | none => none
    | some (numElems, st2) =>
      match genReplicate fuel ctx numElems elem st2 with
      | none => none
      | some (elems, st3) => some (.mk .arrayLit elems .none none, ⟨st3.pos, st.exprDepth⟩)

/-- The element loop of `arrayValue`: `numElems` independent values
of the element type. -/
def genReplicate : Nat → GenCtx → Nat → Ty → GenSt → Option (List Node × GenSt)
  | 0, _, _, _, _ => none
  | _ + 1, _, 0, _, st => some ([], st)
  | fuel + 1, ctx, n + 1, elem, st =>
    match GenerateValueOfType fuel ctx elem st with
    | none => none
    | some (x, st1) =>
      match genReplicate fuel ctx n elem st1 with
      | none => none
      | some (xs, st2) => some (x :: xs, st2)

/-- `g.tupleValue` (expr_generator.go:478-488). -/
def tupleValue : Nat → GenCtx → List Ty → GenSt → Option (Node × GenSt)
  | 0, _, _, _ => none
  | fuel + 1, ctx, elems, st =>
    match genList fuel ctx elems st.bump with
    | none => none
    | some (ns, st2) =>
      some (NewCall (NewName (strBytes "tuple")) ns, ⟨st2.pos, st.exprDepth⟩)

/-- The element loop of `tupleValue`: one value per tuple element
type. -/
def genList : Nat → GenCtx → List Ty → GenSt → Option (List Node × GenSt)
  | 0, _, _, _ => none
  | _ + 1, _, [], st => some ([], st)
  | fuel + 1, ctx, t :: ts, st =>
    match GenerateValueOfType fuel ctx t st with
    | none => none
    | some (x, st1) =>
      match genList fuel ctx ts st1 with
      | none => none
      | some (xs, st2) => some (x :: xs, st2)

/-- `g.mixedValue` (expr_generator.go:331-349). -/
def mixedValue : Nat → GenCtx → Bool → GenSt → Option (Node × GenSt)
  | 0, _, _, _ => none
  | fuel + 1, ctx, permitArray, st =>
    match intRange ctx 0 (if st.exprDepth >= 10 || !permitArray then 3 else 4) st with
    | none => none
    | some (r, st1) =>
      if r = 0 then chooseExpr fuel ctx .bool st1
      else if r = 1 then chooseExpr fuel ctx .int st1
      else if r = 2 then chooseExpr fuel ctx .float st1
      else if r = 3 then chooseExpr fuel ctx .string st1
      else if r = 4 then
        match intn ctx scalarTypes.length st1 with
        | none => none
        | some (ti, st2) => arrayValue fuel ctx (scalarTypes.getD ti BoolType) st2
      else none

end

/-! ## Well-formedness, height bounds and termination measures -/

/-- Does a literal payload match an enum value kind (the type
assertions of the Enum case, expr_generator.go:265-274)? -/
def LitVal.matchesKind (k : ScalarKind) : LitVal → Bool
  | .i _ => k = .int
  | .f _ => k = .float
  | .s _ => k = .string
  | .b _ => false

mutual

/-- Generability of a type: the conditions `PickType` guarantees and
`GenerateValueOfType` needs to avoid its panic branches (scalar kinds
are all handled; enum value kinds must be int/float/string with a
non-empty matching value set; array and tuple components recursively). -/
def Ty.good : Ty → Bool
  | .scalar _ => true
  | .array e => e.good
  | .tuple es => tyGoodList es
  | .enum vk vals =>
    (vk = ScalarKind.int || vk = ScalarKind.float || vk = ScalarKind.string)
      && !vals.isEmpty && vals.all (LitVal.matchesKind vk)
termination_by t => 2 * sizeOf t + 1

def tyGoodList : List Ty → Bool
  | [] => true
  | t :: ts => t.good && tyGoodList ts
termination_by l => 2 * sizeOf l + 1

end

/-- Well-formedness of one catalogued function: arity bounds are
consistent and every parameter type is generable. -/
def FuncType.wf (fn : FuncType) : Bool :=
  decide (fn.minArgsNum ≤ fn.params.length) && fn.params.all (fun p => p.type.good)

/-- All catalogued functions of a symbol table. -/
def SymbolTable.allFuncs (tab : SymbolTable) : List FuncType :=
  tab.boolFuncs ++ tab.intFuncs ++ tab.floatFuncs ++ tab.stringFuncs

/-- Well-formedness of a symbol table: the four buckets are non-empty
and every catalogued function is well-formed. -/
def SymbolTable.wf (tab : SymbolTable) : Bool :=
  !tab.boolFuncs.isEmpty && !tab.intFuncs.isEmpty && !tab.floatFuncs.isEmpty
    && !tab.stringFuncs.isEmpty && tab.allFuncs.all FuncType.wf

mutual

/-- Height contribution of a generated value of a given type above
the per-depth budget. -/
def Ty.hsize : Ty → Nat
  | .scalar _ => 1
  | .enum _ _ => 1
  | .array e => e.hsize + 1
  | .tuple es => hsizeList es + 2
termination_by t => 2 * sizeOf t + 1

def hsizeList : List Ty → Nat
  | [] => 0
  | t :: ts => max t.hsize (hsizeList ts)
termination_by l => 2 * sizeOf l + 1

end

/-- Maximal parameter `hsize` of one catalogued function. -/
def FuncType.pH (fn : FuncType) : Nat :=
  (fn.params.map (fun p => p.type.hsize)).foldr max 0

/-- Maximal parameter `hsize` over a whole symbol table. -/
def SymbolTable.hMax (tab : SymbolTable) : Nat :=
  (tab.allFuncs.map FuncType.pH).foldr max 0

/-- Remaining depth budget below the recursion cap (`exprDepth`
values ≥ 13 all behave alike). -/
def bdg (d : Nat) : Nat := 13 - min d 13

/-- Per-depth height budget constant. -/
def Kc (tab : SymbolTable) : Nat := tab.hMax + 5

/-- Height budget of a `chooseExpr` result entered at depth `d`. -/
def Hh (tab : SymbolTable) (d : Nat) : Nat := Kc tab * bdg d + 2

mutual

/-- Size of a type for the termination measure of the generator. -/
def Ty.gsize : Ty → Nat
  | .scalar .mixed => 8
  | .scalar _ => 1
  | .enum _ _ => 1
  | .array e => e.gsize + 8
  | .tuple es => gsizeList es + 8
termination_by t => 2 * sizeOf t + 1

def gsizeList : List Ty → Nat
  | [] => 0
  | t :: ts => t.gsize + 1 + gsizeList ts
termination_by l => 2 * sizeOf l + 1

end

/-- Measure weight of a parameter list. -/
def paramsSum (ps : List FuncParam) : Nat :=
  ps.foldr (fun p a => p.type.gsize + 1 + a) 0

/-- Maximal parameter weight over a symbol table. -/
def SymbolTable.pMax (tab : SymbolTable) : Nat :=
  (tab.allFuncs.map (fun f => paramsSum f.params)).foldr max 0

/-- Base of the termination measure: one budget step dominates every
same-budget chain. -/
def Mc (tab : SymbolTable) : Nat := 8 * tab.pMax + 1000

def muGen (tab : SymbolTable) (ty : Ty) (st : GenSt) : Nat :=
  bdg st.exprDepth * Mc tab + 8 * ty.gsize + 7

def muChoose (tab : SymbolTable) (st : GenSt) : Nat :=
  bdg st.exprDepth * Mc tab + 2

def muFb (tab : SymbolTable) (st : GenSt) : Nat :=
  bdg st.exprDepth * Mc tab + 8 * tab.pMax + 500

def muRun (tab : SymbolTable) (o : OptKind) (st : GenSt) : Nat :=
  bdg st.exprDepth * Mc tab
    + (match o with | .callOf _ => 8 * tab.pMax + 300 | _ => 100)

def muCall (tab : SymbolTable) (fn : FuncType) (st : GenSt) : Nat :=
  bdg st.exprDepth * Mc tab + 8 * paramsSum fn.params + 200

def muArgs (tab : SymbolTable) (ps : List FuncParam) (st : GenSt) : Nat :=
  bdg st.exprDepth * Mc tab + 8 * paramsSum ps + 8

def muArr (tab : SymbolTable) (e : Ty) (st : GenSt) : Nat :=
  bdg (st.exprDepth + 1) * Mc tab + 8 * e.gsize + 40

def muRepl (tab : SymbolTable) (n : Nat) (e : Ty) (st : GenSt) : Nat :=
  bdg st.exprDepth * Mc tab + 8 * e.gsize + 8 + n

def muTup (tab : SymbolTable) (es : List Ty) (st : GenSt) : Nat :=
  bdg (st.exprDepth + 1) * Mc tab + 8 * gsizeList es + 48

def muList (tab : SymbolTable) (es : List Ty) (st : GenSt) : Nat :=
  bdg st.exprDepth * Mc tab + 8 * gsizeList es + 8

def muMix (tab : SymbolTable) (st : GenSt) : Nat :=
  bdg st.exprDepth * Mc tab + 60

/-- Which option generators can return a nil node (only the
variable lookups). -/
def genCanFail : OptKind → Bool
  | .varOf _ => true
  | .strIndex => true
  | _ => false

/-- Fallbacks that can never fail: literal terminals and the
interpolated string. -/
def fbSafe : Option OptKind → Bool
  | some (.litOf _) => true
  | some .interp => true
  | _ => false

/-- An option is retry-free: its generator cannot fail, or its
fallback cannot. -/
def COpt.ok (o : COpt) : Bool := !genCanFail o.gen || fbSafe o.fb

/-! ## Helper lemmas -/

theorem heightList_nil : heightList [] = 0 := by simp [heightList]

theorem heightList_cons (n : Node) (l : List Node) :
    heightList (n :: l) = max n.height (heightList l) := by
  simp [heightList]

theorem height_mk (o : Op) (args : List Node) (v : Val) (t : Option Ty) :
    (Node.mk o args v t).height = 1 + heightList args := by
  simp [Node.height]

theorem height_pos (n : Node) : 1 ≤ n.height := by
  cases n with
  | mk o args v t => rw [height_mk]; omega

theorem heightList_le (l : List Node) (b : Nat) (h : ∀ a ∈ l, a.height ≤ b) :
    heightList l ≤ b := by
  induction l with
  | nil => rw [heightList_nil]; omega
  | cons x xs ih =>
    rw [heightList_cons]
    exact max_le (h x (by simp)) (ih (fun a ha => h a (by simp [ha])))

theorem NewParens_height (x : Node) : (NewParens x).height = x.height + 1 := by
  rw [NewParens, height_mk, heightList_cons, heightList_nil]
  omega

theorem maybeAddParens_height (x : Node) : (maybeAddParens x).height ≤ x.height + 1 := by
  unfold maybeAddParens
  split
  · omega
  · rw [NewParens_height]

theorem randBool_depth (ctx : GenCtx) (st : GenSt) :
    (randBool ctx st).2.exprDepth = st.exprDepth := rfl

theorem listPick_depth (l : List α) (dflt : α) (ctx : GenCtx) (st : GenSt) :
    (listPick l dflt ctx st).2.exprDepth = st.exprDepth := rfl

theorem intValueGen_depth (ctx : GenCtx) (st : GenSt) :
    (intValueGen ctx st).2.exprDepth = st.exprDepth := by
  unfold intValueGen
  split_ifs <;> rfl

theorem litGen_height (ctx : GenCtx) (k : LitKind) (st : GenSt) :
    (litGen ctx k st).1.height = 1 := by
  cases k
  case bool =>
    simp [litGen, boolValueGen, randBool, NewBoolLit, height_mk, heightList_nil]
  case int =>
    rcases h : intValueGen ctx st with ⟨v, st'⟩
    simp [litGen, h, NewIntLit, height_mk, heightList_nil]
  case float =>
    rcases h : floatValueGen ctx st with ⟨v, st'⟩
    simp [litGen, h, NewFloatLit, height_mk, heightList_nil]
  case string =>
    rcases h : stringValueGen ctx st with ⟨v, st'⟩
    simp [litGen, h, NewStringLit, height_mk, heightList_nil]

theorem litGen_op (ctx : GenCtx) (k : LitKind) (st : GenSt) :
    (litGen ctx k st).1.op =
      (match k with
       | .bool => Op.boolLit | .int => Op.intLit
       | .float => Op.floatLit | .string => Op.stringLit) := by
  cases k
  case bool => simp [litGen, boolValueGen, randBool, NewBoolLit, Node.op]
  case int =>
    rcases h : intValueGen ctx st with ⟨v, st'⟩
    simp [litGen, h, NewIntLit, Node.op]
  case float =>
    rcases h : floatValueGen ctx st with ⟨v, st'⟩
    simp [litGen, h, NewFloatLit, Node.op]
  case string =>
    rcases h : stringValueGen ctx st with ⟨v, st'⟩
    simp [litGen, h, NewStringLit, Node.op]

theorem litGen_depth (ctx : GenCtx) (k : LitKind) (st : GenSt) :
    (litGen ctx k st).2.exprDepth = st.exprDepth := by
  cases k
  case bool => simp [litGen, boolValueGen, randBool]
  case int =>
    rcases h : intValueGen ctx st with ⟨v, st'⟩
    have := intValueGen_depth ctx st
    rw [h] at this
    simp only [litGen, h]
    exact this
  case float =>
    rcases h : floatValueGen ctx st with ⟨v, st'⟩
    have : (floatValueGen ctx st).2.exprDepth = st.exprDepth := rfl
    rw [h] at this
    simp only [litGen, h]
    exact this
  case string =>
    rcases h : stringValueGen ctx st with ⟨v, st'⟩
    have : (stringValueGen ctx st).2.exprDepth = st.exprDepth := rfl
    rw [h] at this
    simp only [litGen, h]
    exact this

theorem findVarOfType_spec :
    ∀ (scope : List ScopeVar) (t : Ty) (n : Node), findVarOfType scope t = some n →
      n.height = 1 ∧ n.op = Op.var := by
  intro scope t
  induction scope with
  | nil => intro n h; simp [findVarOfType] at h
  | cons v rest ih =>
    intro n h
    rw [findVarOfType] at h
    split at h
    · cases h
      constructor
      · rw [NewVar, height_mk, heightList_nil]
      · rfl
    · exact ih n h

theorem interpParts_spec (ctx : GenCtx) :
    ∀ (n : Nat) (st : GenSt),
      heightList (interpParts ctx n st).1 ≤ 1
      ∧ (interpParts ctx n st).2.exprDepth = st.exprDepth := by
  intro n
  induction n with
  | zero => intro st; simp [interpParts, heightList_nil]
  | succ m ih =>
    intro st
    rw [interpParts]
    rcases hR : randBool ctx st with ⟨uv, st1⟩
    have hd1 : st1.exprDepth = st.exprDepth := by
      have := randBool_depth ctx st; rw [hR] at this; exact this
    simp only
    have main : ∀ (part : Node) (st2 : GenSt), part.height = 1 → st2.exprDepth = st.exprDepth →
        heightList (part :: (interpParts ctx m st2).1) ≤ 1
        ∧ (interpParts ctx m st2).2.exprDepth = st.exprDepth := by
      intro part st2 hp hd2
      have hm := ih st2
      constructor
      · rw [heightList_cons, hp]
        exact max_le (by omega) hm.1
      · rw [hm.2, hd2]
    by_cases huv : uv
    · subst huv
      simp only [if_pos rfl]
      rcases hP : listPick scalarTypes BoolType ctx st1 with ⟨t, st1a⟩
      have hda : st1a.exprDepth = st.exprDepth := by
        have := listPick_depth scalarTypes BoolType ctx st1
        rw [hP] at this
        simp only at this
        omega
      cases hF : findVarOfType ctx.scope t with
      | some v =>
        simp only [hF]
        have hv := findVarOfType_spec ctx.scope t v hF
        exact main v st1a hv.1 hda
      | none =>
        simp only [hF]
        rcases hS : stringValueGen ctx st1a with ⟨s, st1b⟩
        have hdb : st1b.exprDepth = st.exprDepth := by
          have : (stringValueGen ctx st1a).2.exprDepth = st1a.exprDepth := rfl
          rw [hS] at this
          simp only at this
          omega
        exact main (NewStringLit s) st1b (by rw [NewStringLit, height_mk, heightList_nil]) hdb
    · simp only [if_neg huv]
      rcases hS : stringValueGen ctx st1 with ⟨s, st1b⟩
      have hdb : st1b.exprDepth = st.exprDepth := by
        have : (stringValueGen ctx st1).2.exprDepth = st1.exprDepth := rfl
        rw [hS] at this
        simp only at this
        omega
      exact main (NewStringLit s) st1b (by rw [NewStringLit, height_mk, heightList_nil]) hdb

theorem interpGen_spec (ctx : GenCtx) (st : GenSt) :
    (interpGen ctx st).1.height ≤ 2
    ∧ (interpGen ctx st).2.exprDepth = st.exprDepth := by
  have h := interpParts_spec ctx (3 + ctx.sigma st.pos % 6) ⟨st.pos + 1, st.exprDepth⟩
  rcases hP : interpParts ctx (3 + ctx.sigma st.pos % 6) ⟨st.pos + 1, st.exprDepth⟩
    with ⟨parts, st2⟩
  rw [hP] at h
  simp only at h
  constructor
  · simp only [interpGen, hP, height_mk]
    omega
  · simp only [interpGen, hP]
    exact h.2

theorem intn_spec (ctx : GenCtx) (n : Nat) (st : GenSt) (v : Nat) (st' : GenSt)
    (h : intn ctx n st = some (v, st')) :
    v < n ∧ st' = ⟨st.pos + 1, st.exprDepth⟩ := by
  rw [intn] at h
  split at h
  · cases h
  · cases h
    exact ⟨Nat.mod_lt _ (by omega), rfl⟩

theorem intn_isSome (ctx : GenCtx) (n : Nat) (st : GenSt) (h : n ≠ 0) :
    (intn ctx n st).isSome := by
  rw [intn, if_neg h]
  rfl

theorem intRange_spec (ctx : GenCtx) (lo hi : Nat) (st : GenSt) (v : Nat) (st' : GenSt)
    (h : intRange ctx lo hi st = some (v, st')) :
    lo ≤ v ∧ v ≤ hi ∧ st' = ⟨st.pos + 1, st.exprDepth⟩ := by
  rw [intRange] at h
  split at h
  · cases h
  · rename_i hord
    cases hI : intn ctx (hi - lo + 1) st with
    | none => rw [hI] at h; cases h
    | some p =>
      rw [hI] at h
      cases h
      have := intn_spec ctx (hi - lo + 1) st p.1 p.2 (by rw [hI])
      refine ⟨by omega, by omega, this.2⟩

theorem intRange_isSome (ctx : GenCtx) (lo hi : Nat) (st : GenSt) (h : lo ≤ hi) :
    (intRange ctx lo hi st).isSome := by
  rw [intRange, if_neg (by omega)]
  cases hI : intn ctx (hi - lo + 1) st with
  | none =>
    have := intn_isSome ctx (hi - lo + 1) st (by omega)
    rw [hI] at this
    simp at this
  | some p => simp

theorem le_foldr_max : ∀ (l : List Nat) (x : Nat), x ∈ l → x ≤ l.foldr max 0 := by
  intro l
  induction l with
  | nil => intro x hx; cases hx
  | cons a t ih =>
    intro x hx
    rcases List.mem_cons.mp hx with h | h
    · subst h
      simp only [List.foldr_cons]
      exact le_max_left _ _
    · simp only [List.foldr_cons]
      exact le_trans (ih x h) (le_max_right _ _)

theorem foldr_max_le (l1 l2 : List Nat) (h : ∀ x ∈ l1, x ∈ l2) :
    l1.foldr max 0 ≤ l2.foldr max 0 := by
  induction l1 with
  | nil => simp [List.foldr]
  | cons a t ih =>
    simp only [List.foldr]
    exact max_le (le_foldr_max l2 a (h a (by simp)))
      (ih (fun x hx => h x (by simp [hx])))

theorem mem_bucket_allFuncs (tab : SymbolTable) (k : LitKind) (fn : FuncType)
    (h : fn ∈ tab.bucket k) : fn ∈ tab.allFuncs := by
  cases k <;> simp [SymbolTable.bucket] at h <;> simp [SymbolTable.allFuncs, h]

theorem pH_le_hMax (tab : SymbolTable) (fn : FuncType) (h : fn ∈ tab.allFuncs) :
    fn.pH ≤ tab.hMax := by
  exact le_foldr_max _ _ (List.mem_map.mpr ⟨fn, h, rfl⟩)

theorem paramsSum_le_pMax (tab : SymbolTable) (fn : FuncType) (h : fn ∈ tab.allFuncs) :
    paramsSum fn.params ≤ tab.pMax := by
  exact le_foldr_max _ _ (List.mem_map.mpr ⟨fn, h, rfl⟩)

theorem paramsSum_cons (p : FuncParam) (ps : List FuncParam) :
    paramsSum (p :: ps) = p.type.gsize + 1 + paramsSum ps := rfl

theorem paramsSum_take_le : ∀ (ps : List FuncParam) (n : Nat),
    paramsSum (ps.take n) ≤ paramsSum ps := by
  intro ps
  induction ps with
  | nil => intro n; simp [List.take]
  | cons p t ih =>
    intro n
    cases n with
    | zero => simp [List.take, paramsSum]
    | succ m =>
      rw [List.take, paramsSum_cons, paramsSum_cons]
      have := ih m
      omega

theorem mem_take_mem : ∀ (ps : List FuncParam) (n : Nat) (x : FuncParam),
    x ∈ ps.take n → x ∈ ps := by
  intro ps n x h
  exact (List.take_subset n ps) h

theorem pH_take_le (fn : FuncType) (n : Nat) :
    ((fn.params.take n).map (fun p => p.type.hsize)).foldr max 0 ≤ fn.pH := by
  apply foldr_max_le
  intro x hx
  rcases List.mem_map.mp hx with ⟨p, hp, he⟩
  exact List.mem_map.mpr ⟨p, mem_take_mem _ _ _ hp, he⟩

theorem bdg_succ_le (d : Nat) : bdg (d + 1) ≤ bdg d := by
  unfold bdg; omega

theorem bdg_step (d : Nat) (h : d ≤ 12) : bdg d = bdg (d + 1) + 1 := by
  unfold bdg; omega

theorem Hh_succ_le (tab : SymbolTable) (d : Nat) : Hh tab (d + 1) ≤ Hh tab d := by
  unfold Hh
  have h1 := bdg_succ_le d
  have := Nat.mul_le_mul_left (Kc tab) h1
  omega

theorem Hh_ge_two (tab : SymbolTable) (d : Nat) : 2 ≤ Hh tab d := by
  unfold Hh; omega

theorem Hh_step (tab : SymbolTable) (d : Nat) (h : d ≤ 10) :
    Hh tab d = Hh tab (d + 1) + Kc tab := by
  unfold Hh
  rw [bdg_step d (by omega)]
  ring

theorem Kc_ge_five (tab : SymbolTable) : 5 ≤ Kc tab := by
  unfold Kc; omega

theorem get?_mem {l : List α} {i : Nat} {x : α} (h : l.get? i = some x) : x ∈ l := by
  exact List.get?_mem h

theorem getD_mem (l : List α) (i : Nat) (d : α) (h : i < l.length) : l.getD i d ∈ l := by
  induction l generalizing i with
  | nil => simp at h
  | cons a t ih =>
    cases i with
    | zero => simp [List.getD]
    | succ j =>
      simp only [List.getD_cons_succ]
      exact List.mem_cons_of_mem _ (ih j (by simpa using h))

/-! ## Concrete contexts for counterexamples and witnesses -/

/-- A PRNG oracle reading from a finite list (0 afterwards). -/
def sigOf (l : List Nat) : Nat → Nat := fun i => l.getD i 0

/-- A symbol table with four empty buckets. -/
def emptySymtab : SymbolTable := ⟨[], [], [], []⟩

/-- A nullary catalogued function. -/
def unitFunc (nm : String) (res : Ty) : FuncType := ⟨strBytes nm, [], 0, res, false⟩

/-- A minimal well-formed symbol table: one nullary function per bucket. -/
def unitSymtab : SymbolTable :=
  ⟨[unitFunc "b0" BoolType], [unitFunc "i0" IntType],
   [unitFunc "f0" FloatType], [unitFunc "s0" StringType]⟩

/-! ## C2 -/

/-- C2: the printer never emits a raw `/` or `%` operator for an
`OpDiv` or `OpMod` node: it prints `_safe_float_div`/`_safe_float_mod`
when the node's `Type` is the Float type and `_safe_int_div`/
`_safe_int_mod` otherwise; in particular `Div(IntLit(5), IntLit(2))`
with `Type=Int` prints exactly `_safe_int_div(5, 2)`. -/
theorem C2_safe_div_mod :
    (∀ (args : List Node) (v : Val) (t : Option Ty) (d : Nat),
       printNode (.mk .div args v t) d =
         ((if t = some FloatType then strBytes "_safe_float_div"
           else strBytes "_safe_int_div")
           ++ strBytes "(" ++ printNodesSep (strBytes ", ") args d ++ strBytes ")",
          flagsStd))
    ∧ (∀ (args : List Node) (v : Val) (t : Option Ty) (d : Nat),
       printNode (.mk .mod args v t) d =
         ((if t = some FloatType then strBytes "_safe_float_mod"
           else strBytes "_safe_int_mod")
           ++ strBytes "(" ++ printNodesSep (strBytes ", ") args d ++ strBytes ")",
          flagsStd))
    ∧ FprintNode ⟨none⟩ (.mk .div [NewIntLit 5, NewIntLit 2] .none (some IntType))
        = strBytes "_safe_int_div(5, 2)" := by
  refine ⟨?_, ?_, ?_⟩
  · intro args v t d
    simp only [printNode]
    split_ifs <;> simp [printSimpleCall]
  · intro args v t d
    simp only [printNode]
    split_ifs <;> simp [printSimpleCall]
  · simp only [FprintNode, printNode]
    rw [if_neg (by decide)]
    simp [printSimpleCall, printNodesSep, printNode, NewIntLit, intLitStr, intDec, strBytes]
    decide

/-! ## C1 -/

/-- The four Float-specific comparison opcodes. -/
def floatCmpVariants : List Op :=
  [.floatEqual2, .floatEqual3, .notFloatEqual2, .notFloatEqual3]

theorem cmpOpRewrite_not_float (op : Op) (t : Ty) (h : t ≠ FloatType) :
    cmpOpRewrite op t = op := by
  unfold cmpOpRewrite
  split
  · exact absurd rfl h
  · rfl

theorem cmpOpRewrite_mem_iff (op : Op) (t : Ty)
    (hop : op ∈ [Op.equal2, Op.equal3, Op.notEqual2, Op.notEqual3]) :
    (cmpOpRewrite op t ∈ floatCmpVariants) ↔ t = FloatType := by
  constructor
  · intro hmem
    by_contra hne
    rw [cmpOpRewrite_not_float op t hne] at hmem
    fin_cases hop <;> simp [floatCmpVariants] at hmem
  · intro ht
    subst ht
    fin_cases hop <;> decide

/-- C1: the comparison generator replaces `==`/`===`/`!=`/`!==` by
the Float-specific opcode exactly when the scalar type it drew for
both operands is Float (and only the five channels' `==`/`===`
options reach it); the printer emits the Float variants as
`float_eq2`/`float_eq3`/`float_neq2`/`float_neq3` calls instead of
infix operators. -/
theorem C1_float_eq_rewrite :
    (∀ (op : Op) (t : Ty), op ∈ [Op.equal2, Op.equal3, Op.notEqual2, Op.notEqual3] →
       ((cmpOpRewrite op t ∈ floatCmpVariants) ↔ t = FloatType))
    ∧ (cmpOpRewrite .equal2 FloatType = .floatEqual2
       ∧ cmpOpRewrite .equal3 FloatType = .floatEqual3
       ∧ cmpOpRewrite .notEqual2 FloatType = .notFloatEqual2
       ∧ cmpOpRewrite .notEqual3 FloatType = .notFloatEqual3)
    ∧ (∀ (op : Op) (t : Ty), op ∈ [Op.equal2, Op.equal3, Op.notEqual2, Op.notEqual3] →
        t ≠ FloatType → cmpOpRewrite op t = op)
    ∧ (∀ (ch : ChanId),
        ((chanOptions ch).all (fun o =>
          match o.gen with
          | .cmp op => op = Op.equal2 || op = Op.equal3
          | _ => true)) = true)
    ∧ (∀ (fuel : Nat) (ctx : GenCtx) (op : Op) (st : GenSt) (n : Node) (st' : GenSt),
        op ∈ [Op.equal2, Op.equal3, Op.notEqual2, Op.notEqual3] →
        runGen (fuel + 1) ctx (.cmp op) st = some (some n, st') →
        ((n.op ∈ floatCmpVariants) ↔
          scalarTypes.getD (ctx.sigma st.pos % scalarTypes.length) BoolType = FloatType))
    ∧ (∀ (args : List Node) (v : Val) (t : Option Ty) (d : Nat),
        printNode (.mk .floatEqual2 args v t) d
          = (strBytes "float_eq2" ++ strBytes "("
              ++ printNodesSep (strBytes ", ") args d ++ strBytes ")", flagsStd)
        ∧ printNode (.mk .floatEqual3 args v t) d
          = (strBytes "float_eq3" ++ strBytes "("
              ++ printNodesSep (strBytes ", ") args d ++ strBytes ")", flagsStd)
        ∧ printNode (.mk .notFloatEqual2 args v t) d
          = (strBytes "float_neq2" ++ strBytes "("
              ++ printNodesSep (strBytes ", ") args d ++ strBytes ")", flagsStd)
        ∧ printNode (.mk .notFloatEqual3 args v t) d
          = (strBytes "float_neq3" ++ strBytes "("
              ++ printNodesSep (strBytes ", ") args d ++ strBytes ")", flagsStd)) := by
  refine ⟨cmpOpRewrite_mem_iff, ⟨rfl, rfl, rfl, rfl⟩,
    (fun op t _ h => cmpOpRewrite_not_float op t h), (by intro ch; cases ch <;> decide), ?_, ?_⟩
  · intro fuel ctx op st n st' hop h
    rw [runGen] at h
    split at h
    next => exact Option.noConfusion h
    next ti st1 hI =>
      split at h
      next => exact Option.noConfusion h
      next x st2 hx =>
        split at h
        next => exact Option.noConfusion h
        next y st3 hy =>
          cases h
          have htieq : ti = ctx.sigma st.pos % scalarTypes.length := by
            rw [intn] at hI
            rw [if_neg (by decide)] at hI
            cases hI
            rfl
          rw [Node.op, htieq]
          exact cmpOpRewrite_mem_iff op _ hop
  · intro args v t d
    refine ⟨?_, ?_, ?_, ?_⟩ <;> (simp only [printNode]; simp [printSimpleCall])

/-! ## C9 -/

/-- C9: the printer is deterministic and independent of the optional
PRNG in its configuration: `FprintNode` and `FprintRootNode` produce
the same bytes for any two configurations (no printing rule reads
`config`). -/
theorem C9_printer_rand_independent :
    ∀ (c1 c2 : Config) (n : Node) (r : RootNode),
      FprintNode c1 n = FprintNode c2 n ∧ FprintRootNode c1 r = FprintRootNode c2 r := by
  intro c1 c2 n r
  exact ⟨rfl, rfl⟩

/-! ## C3 -/

/-- Context of the C3 counterexample: an oracle that, at depth 10,
draws the `Sub` option of the int channel and builds a compound
node. -/
def c3ctx : GenCtx := ⟨sigOf [3, 5, 0, 5, 0, 9], [], emptySymtab⟩

/-- C3 counterexample: at `exprDepth = 10` (at the cap) `chooseExpr`
does NOT return the list-level fallback literal: it draws a weighted
option and here builds an `OpSub` node, while the int channel's
fallback always yields an `OpIntLit` literal. -/
theorem C3_counterexample :
    ((chooseExpr 50 c3ctx .int ⟨0, 10⟩).map (fun p => p.1.op) = some Op.sub)
    ∧ (litGen c3ctx (chanFallback .int) ⟨0, 10⟩).1.op = Op.intLit
    ∧ Op.sub ≠ Op.intLit := by
  refine ⟨by decide, by decide, by decide⟩

/-- C3 (amended): `chooseExpr` short-circuits to the channel's
list-level fallback exactly when the depth counter is strictly above
the cap of 10 (`exprDepth ≥ 11`); the fallback literal is returned
directly, without drawing a weighted option.  At `exprDepth = 10` a
weighted option is still drawn (see the counterexample). -/
theorem C3_depth_cap_fallback (fuel : Nat) (ctx : GenCtx) (ch : ChanId) (st : GenSt)
    (h : st.exprDepth > 10) :
    chooseExpr (fuel + 1) ctx ch st = some (litGen ctx (chanFallback ch) st) := by
  rw [chooseExpr, if_pos h]

/-- Context of the C3 witness. -/
def c3wctx : GenCtx := ⟨sigOf [7, 4], [], emptySymtab⟩

theorem C3_depth_cap_fallback_witness :
    chooseExpr 1 c3wctx .float ⟨0, 11⟩ = some (litGen c3wctx (chanFallback .float) ⟨0, 11⟩) :=
  C3_depth_cap_fallback 0 c3wctx .float ⟨0, 11⟩ (by decide)

/-! ## C10 -/

/-- C10: the channel options `boolCall`, `intCall`, `floatCall`,
`stringCall` index their symbol-table bucket with
`rand.Intn(len(bucket))`: with an empty bucket the draw panics
(modelled `none`), a failure mode the spec never mentions; with a
non-empty bucket the same draws succeed.  Each conjunct drives
`GenerateValueOfType` on a scalar type with an oracle whose first
draw selects the call option of that channel. -/
theorem C10_empty_bucket_draw_panics :
    ((GenerateValueOfType 50 ⟨sigOf [21], [], emptySymtab⟩ BoolType ⟨0, 0⟩).isNone = true
      ∧ (GenerateValueOfType 50 ⟨sigOf [21], [], unitSymtab⟩ BoolType ⟨0, 0⟩).isSome = true)
    ∧ ((GenerateValueOfType 50 ⟨sigOf [16], [], emptySymtab⟩ IntType ⟨0, 0⟩).isNone = true
      ∧ (GenerateValueOfType 50 ⟨sigOf [16], [], unitSymtab⟩ IntType ⟨0, 0⟩).isSome = true)
    ∧ ((GenerateValueOfType 50 ⟨sigOf [7], [], emptySymtab⟩ FloatType ⟨0, 0⟩).isNone = true
      ∧ (GenerateValueOfType 50 ⟨sigOf [7], [], unitSymtab⟩ FloatType ⟨0, 0⟩).isSome = true)
    ∧ ((GenerateValueOfType 50 ⟨sigOf [2], [], emptySymtab⟩ StringType ⟨0, 0⟩).isNone = true
      ∧ (GenerateValueOfType 50 ⟨sigOf [2], [], unitSymtab⟩ StringType ⟨0, 0⟩).isSome = true) := by
  refine ⟨⟨by decide, by decide⟩, ⟨by decide, by decide⟩,
    ⟨by decide, by decide⟩, ⟨by decide, by decide⟩⟩

/-! ## C6 -/

theorem unescape_escByte (b : Nat) (rest : Str) :
    unescapeBytes (escByte b ++ rest) = (unescapeBytes rest).map (fun s => b :: s) := by
  by_cases h1 : b = 13
  · subst h1; norm_num [escByte]; rw [unescapeBytes.eq_def]; norm_num
  by_cases h2 : b = 10
  · subst h2; norm_num [escByte]; rw [unescapeBytes.eq_def]; norm_num
  by_cases h3 : b = 34
  · subst h3; norm_num [escByte]; rw [unescapeBytes.eq_def]; norm_num
  by_cases h4 : b = 92
  · subst h4; norm_num [escByte]; rw [unescapeBytes.eq_def]; norm_num
  by_cases h5 : b = 0
  · subst h5; norm_num [escByte]; rw [unescapeBytes.eq_def]; norm_num
  by_cases h6 : b = 7
  · subst h6; norm_num [escByte]; rw [unescapeBytes.eq_def]; norm_num
  by_cases h7 : b = 8
  · subst h7; norm_num [escByte]; rw [unescapeBytes.eq_def]; norm_num
  by_cases h8 : b = 12
  · subst h8; norm_num [escByte]; rw [unescapeBytes.eq_def]; norm_num
  by_cases h9 : b = 9
  · subst h9; norm_num [escByte]; rw [unescapeBytes.eq_def]; norm_num
  by_cases h10 : b = 11
  · subst h10; norm_num [escByte]; rw [unescapeBytes.eq_def]; norm_num
  by_cases hlt : b < 32
  · have c2 : 48 + b / 8 ≤ 55 := by omega
    have c4 : 48 + b % 8 ≤ 55 := by omega
    have hv : b / 8 * 8 + b % 8 = b := by omega
    simp [escByte, h1, h2, h3, h4, h5, h6, h7, h8, h9, h10, hlt]
    rw [unescapeBytes.eq_def]
    norm_num [c2, c4, hv]
  · simp [escByte, h1, h2, h3, h4, h5, h6, h7, h8, h9, h10, hlt]
    rw [unescapeBytes.eq_def]
    simp [h4]

/-- C6: string-escape round-trip — the printer emits a string literal
as a double-quoted sequence of bytes escaped per `getStringBytes`
(`\r \n \" \\` direct, NUL → `\000`, `\a \b \f \t \v`, other
control bytes as `\0` plus two octal digits, all bytes ≥ 32 pass
through); decoding the escaped bytes under the same rules restores
the original byte string exactly. -/
theorem C6_escape_roundtrip (s : Str) (d : Nat) (hbytes : ∀ b ∈ s, b < 256) :
    (printNode (NewStringLit s) d).1 = [34] ++ getStringBytes s ++ [34]
    ∧ unescapeBytes (getStringBytes s) = some s := by
  constructor
  · simp [printNode, NewStringLit]
  · clear hbytes
    induction s with
    | nil => simp [getStringBytes, unescapeBytes]
    | cons b t ih =>
      have hflat : getStringBytes (b :: t) = escByte b ++ getStringBytes t := by
        simp [getStringBytes]
      rw [hflat, unescape_escByte, ih]
      rfl

/-- C6 witness input: the bytes of `"a\nb\x00c\""` (scenario S5). -/
def s5bytes : Str := [97, 10, 98, 0, 99, 34]

theorem C6_escape_roundtrip_witness :
    (∀ b ∈ s5bytes, b < 256)
    ∧ ((printNode (NewStringLit s5bytes) 0).1 = [34] ++ getStringBytes s5bytes ++ [34]
       ∧ unescapeBytes (getStringBytes s5bytes) = some s5bytes) :=
  ⟨by decide, C6_escape_roundtrip s5bytes 0 (by decide)⟩

/-! ## C8 -/

theorem genArgs_spec :
    ∀ (ps : List FuncParam) (fuel : Nat) (ctx : GenCtx) (st : GenSt) (args : List Node)
      (st' : GenSt), genArgs fuel ctx ps st = some (args, st') →
      args.length = ps.length
      ∧ ∀ (i : Nat) (hi : i < args.length) (hp : i < ps.length),
          ∃ (f : Nat) (a : Node) (s1 s2 : GenSt),
            GenerateValueOfType f ctx (ps.get ⟨i, hp⟩).type s1 = some (a, s2)
            ∧ args.get ⟨i, hi⟩ =
                (if (ps.get ⟨i, hp⟩).strict
                 then Node.mk .cast [maybeAddParens a] .none (some (ps.get ⟨i, hp⟩).type)
                 else a) := by
  intro ps
  induction ps with
  | nil =>
    intro fuel ctx st args st' h
    cases fuel with
    | zero => rw [genArgs] at h; cases h
    | succ f =>
      rw [genArgs] at h
      cases h
      exact ⟨rfl, fun i hi hp => absurd hp (by simp)⟩
  | cons p t ih =>
    intro fuel ctx st args st' h
    cases fuel with
    | zero => rw [genArgs] at h; cases h
    | succ f =>
      rw [genArgs] at h
      split at h
      next => exact Option.noConfusion h
      next a st1 hG =>
        split at h
        next => exact Option.noConfusion h
        next rest st2 hR =>
          cases h
          obtain ⟨hlen, hspec⟩ := ih f ctx st1 _ _ hR
          refine ⟨by simp [hlen], ?_⟩
          intro i hi hp
          cases i with
          | zero => exact ⟨f, a, st, st1, hG, by simp [List.get]⟩
          | succ j =>
            obtain ⟨ff, aa, s1, s2, hgen, heq⟩ :=
              hspec j (by simp at hi; omega) (by simp at hp; omega)
            exact ⟨ff, aa, s1, s2, hgen, by simpa [List.get] using heq⟩

/-- C8: every node returned by `callOfType F` (with
`MinArgsNum ≤ len(Params)`) is a `Call` whose callee is
`Name(F.Name)` and whose argument count lies in
`[F.MinArgsNum, len(F.Params)]`; argument `i` is generated by
`GenerateValueOfType` at type `F.Params[i].Type` and is wrapped in a
cast to that type exactly when `F.Params[i].Strict`; the whole call
is wrapped in a cast to `F.Result` exactly when `F.NeedCast`. -/
theorem C8_callOfType_spec (fuel : Nat) (ctx : GenCtx) (fn : FuncType) (st : GenSt)
    (n : Node) (st' : GenSt) (hmin : fn.minArgsNum ≤ fn.params.length)
    (h : callOfType fuel ctx fn st = some (n, st')) :
    ∃ (args : List Node),
      fn.minArgsNum ≤ args.length ∧ args.length ≤ fn.params.length
      ∧ n = (if fn.needCast
             then Node.mk .cast [NewCall (NewName fn.name) args] .none (some fn.result)
             else NewCall (NewName fn.name) args)
      ∧ ∀ (i : Nat) (hi : i < args.length),
          ∃ (f : Nat) (a : Node) (s1 s2 : GenSt) (hp : i < fn.params.length),
            GenerateValueOfType f ctx (fn.params.get ⟨i, hp⟩).type s1 = some (a, s2)
            ∧ args.get ⟨i, hi⟩ =
                (if (fn.params.get ⟨i, hp⟩).strict
                 then Node.mk .cast [maybeAddParens a] .none (some (fn.params.get ⟨i, hp⟩).type)
                 else a) := by
  cases fuel with
  | zero => rw [callOfType] at h; cases h
  | succ f =>
    rw [callOfType] at h
    split at h
    next => exact Option.noConfusion h
    next numArgs st2 hIR =>
      split at h
      next => exact Option.noConfusion h
      next args st3 hA =>
        cases h
        obtain ⟨hlo, hhi, _⟩ := intRange_spec ctx fn.minArgsNum fn.params.length st.bump
          numArgs st2 hIR
        obtain ⟨hlen, hspec⟩ := genArgs_spec (fn.params.take numArgs) f ctx st2 args st3 hA
        have hlen2 : args.length = numArgs := by
          rw [hlen, List.length_take]
          omega
        refine ⟨args, by omega, by omega, rfl, ?_⟩
        intro i hi
        have hp : i < fn.params.length := by omega
        have hpt : i < (fn.params.take numArgs).length := by
          rw [List.length_take]; omega
        obtain ⟨ff, aa, s1, s2, hgen, heq⟩ := hspec i hi hpt
        have hget : (fn.params.take numArgs).get ⟨i, hpt⟩ = fn.params.get ⟨i, hp⟩ := by
          simp [List.get_take]
        rw [hget] at hgen heq
        exact ⟨ff, aa, s1, s2, hp, hgen, heq⟩

/-- C8 witness: a nullary catalogued function. -/
def c8fn : FuncType := ⟨strBytes "f", [], 0, IntType, false⟩

def c8ctx : GenCtx := ⟨sigOf [], [], emptySymtab⟩

theorem C8_callOfType_spec_witness :
    ∃ (args : List Node),
      c8fn.minArgsNum ≤ args.length ∧ args.length ≤ c8fn.params.length
      ∧ NewCall (NewName c8fn.name) [] =
          (if c8fn.needCast
           then Node.mk .cast [NewCall (NewName c8fn.name) args] .none (some c8fn.result)
           else NewCall (NewName c8fn.name) args)
      ∧ ∀ (i : Nat) (hi : i < args.length),
          ∃ (f : Nat) (a : Node) (s1 s2 : GenSt) (hp : i < c8fn.params.length),
            GenerateValueOfType f c8ctx (c8fn.params.get ⟨i, hp⟩).type s1 = some (a, s2)
            ∧ args.get ⟨i, hi⟩ =
                (if (c8fn.params.get ⟨i, hp⟩).strict
                 then Node.mk .cast [maybeAddParens a] .none
                   (some (c8fn.params.get ⟨i, hp⟩).type)
                 else a) :=
  C8_callOfType_spec 5 c8ctx c8fn ⟨0, 0⟩ (NewCall (NewName c8fn.name) []) ⟨1, 0⟩
    (by decide) rfl

theorem C1_float_eq_rewrite_witness :
    (cmpOpRewrite Op.equal2 FloatType ∈ floatCmpVariants) ↔ FloatType = FloatType :=
  C1_float_eq_rewrite.1 Op.equal2 FloatType (by decide)

/-! ## Height/depth shape of every generated tree (towards C5) -/

theorem mk_two_height (o : Op) (v : Val) (t : Option Ty) (x y : Node) :
    (Node.mk o [x, y] v t).height = 1 + max x.height y.height := by
  rw [height_mk, heightList_cons, heightList_cons, heightList_nil]
  simp

theorem mk_one_height (o : Op) (v : Val) (t : Option Ty) (x : Node) :
    (Node.mk o [x] v t).height = 1 + x.height := by
  rw [height_mk, heightList_cons, heightList_nil]
  simp

theorem NewTernary_height (c x y : Node) :
    (NewTernary c x y).height = 1 + max c.height (max x.height y.height) := by
  rw [NewTernary, height_mk, heightList_cons, heightList_cons, heightList_cons,
    heightList_nil]
  simp

theorem ite_parens_height (c : Prop) [Decidable c] (x : Node) :
    (if c then NewParens x else x).height ≤ x.height + 1 := by
  split
  · rw [NewParens_height]
  · omega

theorem scalar_getD_hsize (i : Nat) : (scalarTypes.getD i BoolType).hsize = 1 := by
  match i with
  | 0 => simp [scalarTypes, List.getD, Ty.hsize, BoolType]
  | 1 => simp [scalarTypes, List.getD, Ty.hsize, IntType]
  | 2 => simp [scalarTypes, List.getD, Ty.hsize, FloatType]
  | 3 => simp [scalarTypes, List.getD, Ty.hsize, StringType]
  | n + 4 => simp [scalarTypes, List.getD, Ty.hsize, BoolType]

/-- Depth preservation and the height bound, for every function of
the generator's mutual block, by induction on the fuel. -/
theorem gen_shape : ∀ (fuel : Nat) (ctx : GenCtx),
    (∀ (ty : Ty) (st : GenSt) (n : Node) (st' : GenSt),
       GenerateValueOfType fuel ctx ty st = some (n, st') →
       st'.exprDepth = st.exprDepth
       ∧ n.height ≤ Hh ctx.symtab st.exprDepth + ty.hsize)
    ∧ (∀ (ch : ChanId) (st : GenSt) (n : Node) (st' : GenSt),
       chooseExpr fuel ctx ch st = some (n, st') →
       st'.exprDepth = st.exprDepth ∧ n.height ≤ Hh ctx.symtab st.exprDepth)
    ∧ (∀ (o : COpt) (st : GenSt) (n : Node) (st' : GenSt),
       runOptionFb fuel ctx o st = some (n, st') →
       st'.exprDepth = st.exprDepth
       ∧ n.height + 1 ≤ Hh ctx.symtab st.exprDepth + Kc ctx.symtab)
    ∧ (∀ (o : OptKind) (st : GenSt) (r : Option Node) (st' : GenSt),
       runGen fuel ctx o st = some (r, st') →
       st'.exprDepth = st.exprDepth
       ∧ (∀ n, r = some n → n.height + 1 ≤ Hh ctx.symtab st.exprDepth + Kc ctx.symtab))
    ∧ (∀ (fn : FuncType) (st : GenSt) (n : Node) (st' : GenSt),
       callOfType fuel ctx fn st = some (n, st') →
       st'.exprDepth = st.exprDepth
       ∧ n.height ≤ Hh ctx.symtab (st.exprDepth + 1) + fn.pH + 4)
    ∧ (∀ (ps : List FuncParam) (st : GenSt) (args : List Node) (st' : GenSt),
       genArgs fuel ctx ps st = some (args, st') →
       st'.exprDepth = st.exprDepth
       ∧ ∀ a ∈ args, a.height ≤ Hh ctx.symtab st.exprDepth
           + (ps.map (fun p => p.type.hsize)).foldr max 0 + 2)
    ∧ (∀ (e : Ty) (st : GenSt) (n : Node) (st' : GenSt),
       arrayValue fuel ctx e st = some (n, st') →
       st'.exprDepth = st.exprDepth
       ∧ n.height ≤ Hh ctx.symtab (st.exprDepth + 1) + e.hsize + 1)
    ∧ (∀ (cnt : Nat) (e : Ty) (st : GenSt) (xs : List Node) (st' : GenSt),
       genReplicate fuel ctx cnt e st = some (xs, st') →
       st'.exprDepth = st.exprDepth
       ∧ ∀ a ∈ xs, a.height ≤ Hh ctx.symtab st.exprDepth + e.hsize)
    ∧ (∀ (es : List Ty) (st : GenSt) (n : Node) (st' : GenSt),
       tupleValue fuel ctx es st = some (n, st') →
       st'.exprDepth = st.exprDepth
       ∧ n.height ≤ Hh ctx.symtab (st.exprDepth + 1) + hsizeList es + 2)
    ∧ (∀ (es : List Ty) (st : GenSt) (xs : List Node) (st' : GenSt),
       genList fuel ctx es st = some (xs, st') →
       st'.exprDepth = st.exprDepth
       ∧ ∀ a ∈ xs, a.height ≤ Hh ctx.symtab st.exprDepth + hsizeList es)
    ∧ (∀ (pa : Bool) (st : GenSt) (n : Node) (st' : GenSt),
       mixedValue fuel ctx pa st = some (n, st') →
       st'.exprDepth = st.exprDepth ∧ n.height ≤ Hh ctx.symtab st.exprDepth + 1) := by
  intro fuel
  induction fuel with
  | zero =>
    intro ctx
    refine ⟨fun ty st n st' h => ?_, fun ch st n st' h => ?_,
      fun o st n st' h => ?_, fun o st r st' h => ?_,
      fun fn st n st' h => ?_, fun ps st args st' h => ?_,
      fun e st n st' h => ?_, fun cnt e st xs st' h => ?_,
      fun es st n st' h => ?_, fun es st xs st' h => ?_,
      fun pa st n st' h => ?_⟩
    · rw [GenerateValueOfType] at h; exact Option.noConfusion h
    · rw [chooseExpr] at h; exact Option.noConfusion h
    · rw [runOptionFb] at h; exact Option.noConfusion h
    · rw [runGen] at h; exact Option.noConfusion h
    · rw [callOfType] at h; exact Option.noConfusion h
    · rw [genArgs] at h; exact Option.noConfusion h
    · rw [arrayValue] at h; exact Option.noConfusion h
    · rw [genReplicate] at h; exact Option.noConfusion h
    · rw [tupleValue] at h; exact Option.noConfusion h
    · rw [genList] at h; exact Option.noConfusion h
    · rw [mixedValue] at h; exact Option.noConfusion h
  | succ f ih =>
    intro ctx
    obtain ⟨ihG, ihC, ihF, ihR, ihCall, ihArgs, ihArr, ihRepl, ihTup, ihList, ihMix⟩ := ih ctx
    have hK := Kc_ge_five ctx.symtab
    refine ⟨?_, ?_, ?_, ?_, ?_, ?_, ?_, ?_, ?_, ?_, ?_⟩
    -- GenerateValueOfType
    · intro ty st n st' h
      cases ty with
      | scalar k =>
        cases k with
        | bool =>
          simp only [GenerateValueOfType] at h
          obtain ⟨hd, hh⟩ := ihC .bool st n st' h
          exact ⟨hd, by simp only [Ty.hsize]; omega⟩
        | int =>
          simp only [GenerateValueOfType] at h
          obtain ⟨hd, hh⟩ := ihC .int st n st' h
          exact ⟨hd, by simp only [Ty.hsize]; omega⟩
        | float =>
          simp only [GenerateValueOfType] at h
          obtain ⟨hd, hh⟩ := ihC .float st n st' h
          exact ⟨hd, by simp only [Ty.hsize]; omega⟩
        | string =>
          simp only [GenerateValueOfType] at h
          obtain ⟨hd, hh⟩ := ihC .string st n st' h
          exact ⟨hd, by simp only [Ty.hsize]; omega⟩
        | mixed =>
          simp only [GenerateValueOfType] at h
          obtain ⟨hd, hh⟩ := ihMix true st n st' h
          exact ⟨hd, by simp only [Ty.hsize]; omega⟩
      | enum vk vals =>
        simp only [GenerateValueOfType] at h
        have h2 := Hh_ge_two ctx.symtab st.exprDepth
        split at h
        next v hv =>
          have hvv : findVarOfType ctx.scope (Ty.enum vk vals) = some v := by
            split at hv
            · exact hv
            · exact Option.noConfusion hv
          obtain ⟨hh1, _⟩ := findVarOfType_spec _ _ _ hvv
          cases h
          exact ⟨rfl, by simp only [Ty.hsize]; omega⟩
        next hv =>
          split at h
          next => exact Option.noConfusion h
          next vi st2 hI =>
            obtain ⟨_, hst2⟩ := intn_spec _ _ _ _ _ hI
            subst hst2
            split at h <;>
              first
              | exact Option.noConfusion h
              | (cases h
                 refine ⟨rfl, ?_⟩
                 simp only [Ty.hsize, NewIntLit, NewFloatLit, NewStringLit, height_mk,
                   heightList_nil]
                 omega)
      | array e =>
        simp only [GenerateValueOfType] at h
        obtain ⟨hd, hh⟩ := ihArr e st n st' h
        have hm := Hh_succ_le ctx.symtab st.exprDepth
        exact ⟨hd, by simp only [Ty.hsize]; omega⟩
      | tuple es =>
        simp only [GenerateValueOfType] at h
        obtain ⟨hd, hh⟩ := ihTup es st n st' h
        have hm := Hh_succ_le ctx.symtab st.exprDepth
        exact ⟨hd, by simp only [Ty.hsize]; omega⟩
    -- chooseExpr
    · intro ch st n st' h
      rw [chooseExpr] at h
      split at h
      next hgt =>
        injection h with h1
        have hd2 : (litGen ctx (chanFallback ch) st).2 = st' := congrArg Prod.snd h1
        have hd1 : (litGen ctx (chanFallback ch) st).1 = n := congrArg Prod.fst h1
        have := Hh_ge_two ctx.symtab st.exprDepth
        refine ⟨?_, ?_⟩
        · rw [← hd2]
          exact litGen_depth ctx (chanFallback ch) st
        · rw [← hd1, litGen_height]
          omega
      next hle =>
        split at h
        next => exact Option.noConfusion h
        next probe st2 hI =>
          split at h
          next => exact Option.noConfusion h
          next i hidx =>
            split at h
            next => exact Option.noConfusion h
            next o hopt =>
              split at h
              next => exact Option.noConfusion h
              next nf st3 hFb =>
                split at h
                next => exact Option.noConfusion h
                next roll st4 hroll =>
                  cases h
                  obtain ⟨_, hst2⟩ := intn_spec _ _ _ _ _ hI
                  obtain ⟨hd3, hh3⟩ := ihF o st2 nf st3 hFb
                  refine ⟨rfl, ?_⟩
                  have hdep : st2.exprDepth = st.exprDepth + 1 := by rw [hst2]; rfl
                  have hstep : Hh ctx.symtab st.exprDepth
                      = Hh ctx.symtab (st.exprDepth + 1) + Kc ctx.symtab :=
                    Hh_step _ _ (by omega)
                  rw [hdep] at hh3
                  split
                  · rw [NewParens_height]; omega
                  · omega
    -- runOptionFb
    · intro o st n st' h
      rw [runOptionFb] at h
      split at h
      next => exact Option.noConfusion h
      next n0 st1 hG =>
        cases h
        obtain ⟨hd, hb⟩ := ihR o.gen st (some n) st' hG
        exact ⟨hd, hb n rfl⟩
      next st1 hG =>
        split at h
        next => exact Option.noConfusion h
        next fbk hfb =>
          split at h
          next => exact Option.noConfusion h
          next n2 st2 hG2 =>
            cases h
            obtain ⟨hd1, _⟩ := ihR o.gen st none st1 hG
            obtain ⟨hd2, hb2⟩ := ihR fbk st1 (some n) st' hG2
            rw [hd1] at hd2 hb2
            exact ⟨hd2, hb2 n rfl⟩
          next st2 hG2 => exact Option.noConfusion h
    -- runGen
    · intro o st r st' h
      have h2 := Hh_ge_two ctx.symtab st.exprDepth
      cases o with
      | cmp op =>
        rw [runGen] at h
        split at h
        next => exact Option.noConfusion h
        next ti st1 hI =>
          split at h
          next => exact Option.noConfusion h
          next x st2 hx =>
            split at h
            next => exact Option.noConfusion h
            next y st3 hy =>
              cases h
              obtain ⟨_, hst1⟩ := intn_spec _ _ _ _ _ hI
              obtain ⟨hdx, hbx⟩ := ihG _ st1 x st2 hx
              obtain ⟨hdy, hby⟩ := ihG _ st2 y st' hy
              have hd1 : st1.exprDepth = st.exprDepth := by rw [hst1]
              refine ⟨by rw [hdy, hdx, hd1], ?_⟩
              intro m hm
              cases hm
              rw [mk_two_height]
              have hhs := scalar_getD_hsize ti
              rw [hhs] at hbx hby
              rw [hd1] at hbx
              rw [hdx, hd1] at hby
              have hmx := maybeAddParens_height x
              have hmy := maybeAddParens_height y
              have hmax : max (maybeAddParens x).height (maybeAddParens y).height
                  ≤ Hh ctx.symtab st.exprDepth + 2 :=
                max_le (by omega) (by omega)
              omega
      | binary op hint chan =>
        rw [runGen] at h
        split at h
        next => exact Option.noConfusion h
        next x st1 hx =>
          split at h
          next => exact Option.noConfusion h
          next y st2 hy =>
            cases h
            obtain ⟨hdx, hbx⟩ := ihC chan st x st1 hx
            obtain ⟨hdy, hby⟩ := ihC chan st1 y st' hy
            rw [hdx] at hdy hby
            refine ⟨hdy, ?_⟩
            intro m hm
            cases hm
            rw [mk_two_height]
            have hmx := maybeAddParens_height x
            have hmy := maybeAddParens_height y
            have hmax : max (maybeAddParens x).height (maybeAddParens y).height
                ≤ Hh ctx.symtab st.exprDepth + 1 :=
              max_le (by omega) (by omega)
            omega
      | binCast op hint castTy chan =>
        rw [runGen] at h
        split at h
        next => exact Option.noConfusion h
        next x st1 hx =>
          split at h
          next => exact Option.noConfusion h
          next y st2 hy =>
            cases h
            obtain ⟨hdx, hbx⟩ := ihC chan st x st1 hx
            obtain ⟨hdy, hby⟩ := ihC chan st1 y st' hy
            rw [hdx] at hdy hby
            refine ⟨hdy, ?_⟩
            intro m hm
            cases hm
            rw [mk_one_height]
            have hmx := maybeAddParens_height x
            have hmy := maybeAddParens_height y
            have hmax : max (maybeAddParens x).height (maybeAddParens y).height
                ≤ Hh ctx.symtab st.exprDepth + 1 :=
              max_le (by omega) (by omega)
            have hin : (Node.mk op [maybeAddParens x, maybeAddParens y] Val.none
                (some hint)).height ≤ Hh ctx.symtab st.exprDepth + 2 := by
              rw [mk_two_height]; omega
            have hmi := maybeAddParens_height
              (Node.mk op [maybeAddParens x, maybeAddParens y] Val.none (some hint))
            omega
      | unary op chan =>
        rw [runGen] at h
        split at h
        next => exact Option.noConfusion h
        next x st1 hx =>
          cases h
          obtain ⟨hdx, hbx⟩ := ihC chan st x st' hx
          refine ⟨hdx, ?_⟩
          intro m hm
          cases hm
          rw [mk_one_height]
          have hmx := maybeAddParens_height x
          omega
      | ternaryOf c =>
        rw [runGen] at h
        split at h
        next => exact Option.noConfusion h
        next cond st1 hc =>
          split at h
          next => exact Option.noConfusion h
          next x st2 hx =>
            split at h
            next => exact Option.noConfusion h
            next y st3 hy =>
              cases h
              obtain ⟨hdc, hbc⟩ := ihC .cond st cond st1 hc
              obtain ⟨hdx, hbx⟩ := ihC c st1 x st2 hx
              obtain ⟨hdy, hby⟩ := ihC c st2 y st3 hy
              rw [hdc] at hdx hbx
              rw [hdx] at hdy hby
              refine ⟨hdy, ?_⟩
              intro m hm
              cases hm
              rw [NewParens_height, NewTernary_height]
              have hpx := ite_parens_height (ctx.sigma st3.pos % 2 = 0) x
              have hpy := ite_parens_height (ctx.sigma (st3.pos + 1) % 2 = 0) y
              have hmax2 : max (if ctx.sigma st3.pos % 2 = 0 then NewParens x else x).height
                  (if ctx.sigma (st3.pos + 1) % 2 = 0 then NewParens y else y).height
                  ≤ Hh ctx.symtab st.exprDepth + 1 :=
                max_le (by omega) (by omega)
              have hmax3 : max cond.height
                  (max (if ctx.sigma st3.pos % 2 = 0 then NewParens x else x).height
                    (if ctx.sigma (st3.pos + 1) % 2 = 0 then NewParens y else y).height)
                  ≤ Hh ctx.symtab st.exprDepth + 1 :=
                max_le (by omega) hmax2
              omega
      | litOf k =>
        rw [runGen] at h
        cases h
        refine ⟨litGen_depth ctx k st, ?_⟩
        intro m hm
        cases hm
        rw [litGen_height]
        omega
      | varOf k =>
        rw [runGen] at h
        cases h
        refine ⟨rfl, ?_⟩
        intro m hm
        obtain ⟨hh1, _⟩ := findVarOfType_spec _ _ _ hm
        omega
      | callOf k =>
        rw [runGen] at h
        split at h
        next => exact Option.noConfusion h
        next fi st1 hI =>
          split at h
          next => exact Option.noConfusion h
          next fn hfn =>
            split at h
            next => exact Option.noConfusion h
            next n0 st2 hcall =>
              cases h
              obtain ⟨_, hst1⟩ := intn_spec _ _ _ _ _ hI
              have hd1 : st1.exprDepth = st.exprDepth := by rw [hst1]
              obtain ⟨hd2, hb2⟩ := ihCall fn st1 n0 st' hcall
              rw [hd1] at hd2 hb2
              refine ⟨hd2, ?_⟩
              intro m hm
              cases hm
              have hpH : fn.pH ≤ ctx.symtab.hMax :=
                pH_le_hMax _ _ (mem_bucket_allFuncs _ _ _ (get?_mem hfn))
              have hmono := Hh_succ_le ctx.symtab st.exprDepth
              have hKc : Kc ctx.symtab = ctx.symtab.hMax + 5 := rfl
              omega
      | negationInt =>
        rw [runGen] at h
        split at h
        next => exact Option.noConfusion h
        next x st1 hx =>
          cases h
          obtain ⟨hdx, hbx⟩ := ihC .int st x st' hx
          refine ⟨hdx, ?_⟩
          intro m hm
          cases hm
          rw [NewNegation, mk_one_height]
          have hmx := maybeAddParens_height x
          omega
      | castTo t =>
        rw [runGen] at h
        split at h
        next => exact Option.noConfusion h
        next a st1 ha =>
          cases h
          obtain ⟨hda, hba⟩ := ihMix false st a st' ha
          refine ⟨hda, ?_⟩
          intro m hm
          cases hm
          rw [mk_one_height]
          have hma := maybeAddParens_height a
          omega
      | interp =>
        rw [runGen] at h
        cases h
        obtain ⟨hhi, hdi⟩ := interpGen_spec ctx st
        refine ⟨hdi, ?_⟩
        intro m hm
        cases hm
        omega
      | strIndex =>
        rw [runGen] at h
        split at h
        next hvar =>
          cases h
          exact ⟨rfl, fun m hm => Option.noConfusion hm⟩
        next lv hvar =>
          split at h
          next => exact Option.noConfusion h
          next rr st1 hIR =>
            obtain ⟨_, _, hst1⟩ := intRange_spec _ _ _ _ _ _ hIR
            have hd1 : st1.exprDepth = st.exprDepth := by rw [hst1]
            obtain ⟨hlv, _⟩ := findVarOfType_spec _ _ _ hvar
            have hmlv := maybeAddParens_height lv
            split at h
            next hr =>
              split at h
              next => exact Option.noConfusion h
              next key st2 hkey =>
                cases h
                obtain ⟨hdk, hbk⟩ := ihC .int st1 key st' hkey
                rw [hd1] at hdk hbk
                refine ⟨hdk, ?_⟩
                intro m hm
                cases hm
                rw [mk_one_height, NewIndex, mk_two_height]
                have hmax : max (maybeAddParens lv).height key.height
                    ≤ Hh ctx.symtab st.exprDepth :=
                  max_le (by omega) (by omega)
                omega
            next hr =>
              cases h
              refine ⟨hd1, ?_⟩
              intro m hm
              cases hm
              rw [mk_one_height, NewIndex, mk_two_height]
              have hil : (NewIntLit (-1)).height = 1 := by
                rw [NewIntLit, height_mk, heightList_nil]
              have hmax : max (maybeAddParens lv).height (NewIntLit (-1)).height
                  ≤ Hh ctx.symtab st.exprDepth :=
                max_le (by omega) (by omega)
              omega
    -- callOfType
    · intro fn st n st' h
      rw [callOfType] at h
      split at h
      next => exact Option.noConfusion h
      next numArgs st2 hIR =>
        split at h
        next => exact Option.noConfusion h
        next args st3 hA =>
          cases h
          obtain ⟨_, _, hst2⟩ := intRange_spec _ _ _ _ _ _ hIR
          obtain ⟨hd, hargs⟩ := ihArgs (fn.params.take numArgs) st2 args st3 hA
          have hdep2 : st2.exprDepth = st.exprDepth + 1 := by rw [hst2]; rfl
          refine ⟨rfl, ?_⟩
          have h2s := Hh_ge_two ctx.symtab (st.exprDepth + 1)
          have hl : heightList args ≤ Hh ctx.symtab (st.exprDepth + 1) + fn.pH + 2 := by
            apply heightList_le
            intro a ha
            have hone := hargs a ha
            rw [hdep2] at hone
            have htake := pH_take_le fn numArgs
            omega
          have hn1 : (NewName fn.name).height = 1 := by
            rw [NewName, height_mk, heightList_nil]
          have hcall : (NewCall (NewName fn.name) args).height
              ≤ Hh ctx.symtab (st.exprDepth + 1) + fn.pH + 3 := by
            rw [NewCall, height_mk, heightList_cons]
            have hmax : max (NewName fn.name).height (heightList args)
                ≤ Hh ctx.symtab (st.exprDepth + 1) + fn.pH + 2 :=
              max_le (by omega) hl
            omega
          split
          · rw [mk_one_height]; omega
          · omega
    -- genArgs
    · intro ps st args st' h
      cases ps with
      | nil =>
        rw [genArgs] at h
        cases h
        exact ⟨rfl, fun a ha => absurd ha (by simp)⟩
      | cons p pt =>
        rw [genArgs] at h
        split at h
        next => exact Option.noConfusion h
        next a st1 hG =>
          split at h
          next => exact Option.noConfusion h
          next rest st2 hR =>
            cases h
            obtain ⟨hd1, hb1⟩ := ihG p.type st a st1 hG
            obtain ⟨hd2, hb2⟩ := ihArgs pt st1 _ _ hR
            refine ⟨by rw [hd2, hd1], ?_⟩
            intro x hx
            have hph : p.type.hsize
                ≤ ((p :: pt).map (fun q => q.type.hsize)).foldr max 0 := by
              apply le_foldr_max
              simp
            have hsub : ((pt).map (fun q => q.type.hsize)).foldr max 0
                ≤ ((p :: pt).map (fun q => q.type.hsize)).foldr max 0 := by
              rw [List.map_cons, List.foldr_cons]
              exact le_max_right _ _
            rcases List.mem_cons.mp hx with hx | hx
            · subst hx
              have hma := maybeAddParens_height a
              split
              · rw [mk_one_height]; omega
              · omega
            · have := hb2 x hx
              rw [hd1] at this
              omega
    -- arrayValue
    · intro e st n st' h
      rw [arrayValue] at h
      split at h
      next => exact Option.noConfusion h
      next numElems st2 hIR =>
        split at h
        next => exact Option.noConfusion h
        next elems st3 hRep =>
          cases h
          obtain ⟨_, _, hst2⟩ := intRange_spec _ _ _ _ _ _ hIR
          obtain ⟨hd, hb⟩ := ihRepl numElems e st2 _ _ hRep
          have hdep2 : st2.exprDepth = st.exprDepth + 1 := by rw [hst2]; rfl
          refine ⟨rfl, ?_⟩
          rw [height_mk]
          have hl : heightList elems ≤ Hh ctx.symtab (st.exprDepth + 1) + e.hsize := by
            apply heightList_le
            intro a ha
            have := hb a ha
            rw [hdep2] at this
            exact this
          omega
    -- genReplicate
    · intro cnt e st xs st' h
      cases cnt with
      | zero =>
        rw [genReplicate] at h
        cases h
        exact ⟨rfl, fun a ha => absurd ha (by simp)⟩
      | succ m =>
        rw [genReplicate] at h
        split at h
        next => exact Option.noConfusion h
        next x st1 hx =>
          split at h
          next => exact Option.noConfusion h
          next rest st2 hR =>
            cases h
            obtain ⟨hd1, hb1⟩ := ihG e st x st1 hx
            obtain ⟨hd2, hb2⟩ := ihRepl m e st1 _ _ hR
            refine ⟨by rw [hd2, hd1], ?_⟩
            intro a ha
            rcases List.mem_cons.mp ha with ha | ha
            · subst ha; omega
            · have := hb2 a ha
              rw [hd1] at this
              omega
    -- tupleValue
    · intro es st n st' h
      rw [tupleValue] at h
      split at h
      next => exact Option.noConfusion h
      next ns st2 hL =>
        cases h
        obtain ⟨hd, hb⟩ := ihList es st.bump _ _ hL
        have hdep2 : (st.bump).exprDepth = st.exprDepth + 1 := rfl
        refine ⟨rfl, ?_⟩
        have h2s := Hh_ge_two ctx.symtab (st.exprDepth + 1)
        have hl : heightList ns ≤ Hh ctx.symtab (st.exprDepth + 1) + hsizeList es := by
          apply heightList_le
          intro a ha
          have := hb a ha
          rw [hdep2] at this
          exact this
        have hn1 : (NewName (strBytes "tuple")).height = 1 := by
          rw [NewName, height_mk, heightList_nil]
        rw [NewCall, height_mk, heightList_cons]
        have hmax : max (NewName (strBytes "tuple")).height (heightList ns)
            ≤ Hh ctx.symtab (st.exprDepth + 1) + hsizeList es + 1 :=
          max_le (by omega) (by omega)
        omega
    -- genList
    · intro es st xs st' h
      cases es with
      | nil =>
        rw [genList] at h
        cases h
        exact ⟨rfl, fun a ha => absurd ha (by simp)⟩
      | cons e et =>
        rw [genList] at h
        split at h
        next => exact Option.noConfusion h
        next x st1 hx =>
          split at h
          next => exact Option.noConfusion h
          next rest st2 hR =>
            cases h
            obtain ⟨hd1, hb1⟩ := ihG e st x st1 hx
            obtain ⟨hd2, hb2⟩ := ihList et st1 _ _ hR
            refine ⟨by rw [hd2, hd1], ?_⟩
            intro a ha
            have hhd : e.hsize ≤ hsizeList (e :: et) := by
              rw [hsizeList]
              exact le_max_left _ _
            have htl : hsizeList et ≤ hsizeList (e :: et) := by
              rw [hsizeList]
              exact le_max_right _ _
            rcases List.mem_cons.mp ha with ha | ha
            · subst ha; omega
            · have := hb2 a ha
              rw [hd1] at this
              omega
    -- mixedValue
    · intro pa st n st' h
      rw [mixedValue] at h
      split at h
      next => exact Option.noConfusion h
      next rr st1 hIR =>
        obtain ⟨hlo, hhi, hst1⟩ := intRange_spec _ _ _ _ _ _ hIR
        have hd1 : st1.exprDepth = st.exprDepth := by rw [hst1]
        split_ifs at h with hr0 hr1 hr2 hr3 hr4
        · obtain ⟨hd, hb⟩ := ihC .bool st1 n st' h
          rw [hd1] at hd hb
          exact ⟨hd, by omega⟩
        · obtain ⟨hd, hb⟩ := ihC .int st1 n st' h
          rw [hd1] at hd hb
          exact ⟨hd, by omega⟩
        · obtain ⟨hd, hb⟩ := ihC .float st1 n st' h
          rw [hd1] at hd hb
          exact ⟨hd, by omega⟩
        · obtain ⟨hd, hb⟩ := ihC .string st1 n st' h
          rw [hd1] at hd hb
          exact ⟨hd, by omega⟩
        · -- rr = 4: array of a scalar; only possible below the depth cap
          have hdlt : st.exprDepth < 10 := by
            by_contra hge
            have hcond : (st.exprDepth >= 10 || !pa) = true := by
              have : decide (st.exprDepth ≥ 10) = true := decide_eq_true (by omega)
              simp [this]
            rw [if_pos hcond] at hhi
            omega
          split at h
          next => exact Option.noConfusion h
          next ti st2 hti =>
            obtain ⟨_, hst2⟩ := intn_spec _ _ _ _ _ hti
            have hd2 : st2.exprDepth = st.exprDepth := by rw [hst2, hd1]
            obtain ⟨hd, hb⟩ := ihArr _ st2 n st' h
            rw [hd2] at hd hb
            refine ⟨hd, ?_⟩
            have hstep : Hh ctx.symtab st.exprDepth
                = Hh ctx.symtab (st.exprDepth + 1) + Kc ctx.symtab :=
              Hh_step _ _ (by omega)
            have hhs := scalar_getD_hsize ti
            rw [hhs] at hb
            omega

/-! ## C5: the claimed absolute height bound of 12, and the bound
that does hold -/

/-- A PRNG stream that nests five `add` draws (probe 1) inside one
another before bottoming out in literals (probe 23), always passing
the paren roll (5 mod 10 <= 3 is false for 5, true for 0; the 0
draws make every paren roll succeed). -/
def c5ctx : GenCtx :=
  ⟨sigOf [1, 1, 1, 1, 1, 23, 5, 0, 9, 23, 5, 0, 9, 9, 23, 5, 0, 9, 9, 23, 5, 0,
    9, 9, 23, 5, 0, 9, 9, 23, 5, 0, 9, 9], [], emptySymtab⟩

/-- The tree `GenerateValueOfType` produces on the `c5ctx` stream:
five levels of `(int)(... + ...)` nesting, height 20. -/
def c5node : Node :=
  Node.mk
     (Op.cast)
     [Node.mk
        (Op.parens)
        [Node.mk
           (Op.add)
           [Node.mk
              (Op.parens)
              [Node.mk
                 (Op.cast)
                 [Node.mk
                    (Op.parens)
                    [Node.mk
                       (Op.add)
                       [Node.mk
                          (Op.parens)
                          [Node.mk
                             (Op.cast)
                             [Node.mk
                                (Op.parens)
                                [Node.mk
                                   (Op.add)
                                   [Node.mk
                                      (Op.parens)
                                      [Node.mk
                                         (Op.cast)
                                         [Node.mk
                                            (Op.parens)
                                            [Node.mk
                                               (Op.add)
                                               [Node.mk
                                                  (Op.parens)
                                                  [Node.mk
                                                     (Op.cast)
                                                     [Node.mk
                                                        (Op.parens)
                                                        [Node.mk
                                                           (Op.add)
                                                           [Node.mk
                                                              (Op.intLit)
                                                              []
                                                              (Val.i 0)
                                                              none,
                                                            Node.mk
                                                              (Op.intLit)
                                                              []
                                                              (Val.i 0)
                                                              none]
                                                           (Val.none)
                                                           (some (Ty.scalar (ScalarKind.int)))]
                                                        (Val.none)
                                                        none]
                                                     (Val.none)
                                                     (some (Ty.scalar (ScalarKind.int)))]
                                                  (Val.none)
                                                  none,
                                                Node.mk (Op.intLit) [] (Val.i 0) none]
                                               (Val.none)
                                               (some (Ty.scalar (ScalarKind.int)))]
                                            (Val.none)
                                            none]
                                         (Val.none)
                                         (some (Ty.scalar (ScalarKind.int)))]
                                      (Val.none)
                                      none,
                                    Node.mk (Op.intLit) [] (Val.i 0) none]
                                   (Val.none)
                                   (some (Ty.scalar (ScalarKind.int)))]
                                (Val.none)
                                none]
                             (Val.none)
                             (some (Ty.scalar (ScalarKind.int)))]
                          (Val.none)
                          none,
                        Node.mk (Op.intLit) [] (Val.i 0) none]
                       (Val.none)
                       (some (Ty.scalar (ScalarKind.int)))]
                    (Val.none)
                    none]
                 (Val.none)
                 (some (Ty.scalar (ScalarKind.int)))]
              (Val.none)
              none,
            Node.mk (Op.intLit) [] (Val.i 0) none]
           (Val.none)
           (some (Ty.scalar (ScalarKind.int)))]
        (Val.none)
        none]
     (Val.none)
     (some (Ty.scalar (ScalarKind.int)))

/-- C5: the spec claims every generated tree has height at most 12,
but the depth counter admits up to 11 levels of `chooseExpr` nesting
and each level can add a cast, a parens and a binary node: the
`c5ctx` stream yields a tree of height 20. -/
theorem C5_counterexample :
    GenerateValueOfType 60 c5ctx IntType ⟨0, 0⟩ = some (c5node, ⟨34, 0⟩)
    ∧ 12 < c5node.height := by
  constructor
  · rfl
  · simp only [c5node, height_mk, heightList_cons, heightList_nil]
    decide

/-- C5 (amended): every tree returned by `GenerateValueOfType` has
height at most `Hh symtab exprDepth + hsize ty`, i.e.
`(hMax + 5) * (13 - min exprDepth 13) + 2 + hsize ty`: linear in the
remaining depth budget and the symbol table's largest parameter
count, but not the constant 12. -/
theorem C5_height_bound (fuel : Nat) (ctx : GenCtx) (ty : Ty) (st : GenSt)
    (n : Node) (st' : GenSt)
    (h : GenerateValueOfType fuel ctx ty st = some (n, st')) :
    n.height ≤ Hh ctx.symtab st.exprDepth + ty.hsize :=
  ((gen_shape fuel ctx).1 ty st n st' h).2

theorem C5_height_bound_witness :
    (NewIntLit 0).height ≤ Hh emptySymtab 11 + IntType.hsize :=
  C5_height_bound 2 ⟨sigOf [0], [], emptySymtab⟩ IntType ⟨0, 11⟩
    (NewIntLit 0) ⟨2, 11⟩ (by rfl)

/-! ## Totality of the generator (towards C4) -/

theorem bdgMc_step (tab : SymbolTable) (d : Nat) (h : d ≤ 12) :
    bdg d * Mc tab = bdg (d + 1) * Mc tab + Mc tab := by
  have hb : bdg d = bdg (d + 1) + 1 := by simp only [bdg]; omega
  rw [hb, Nat.add_mul, Nat.one_mul]

theorem Ty.gsize_scalar_mixed : (Ty.scalar ScalarKind.mixed).gsize = 8 := by
  simp [Ty.gsize]

theorem Ty.gsize_array (e : Ty) : (Ty.array e).gsize = e.gsize + 8 := by
  simp [Ty.gsize]

theorem Ty.gsize_tuple (es : List Ty) : (Ty.tuple es).gsize = gsizeList es + 8 := by
  simp [Ty.gsize]

theorem gsizeList_cons (t : Ty) (ts : List Ty) :
    gsizeList (t :: ts) = t.gsize + 1 + gsizeList ts := by
  simp [gsizeList]

theorem scalar_getD_good (i : Nat) : (scalarTypes.getD i BoolType).good = true := by
  match i with
  | 0 => simp [scalarTypes, List.getD, Ty.good, BoolType]
  | 1 => simp [scalarTypes, List.getD, Ty.good, IntType]
  | 2 => simp [scalarTypes, List.getD, Ty.good, FloatType]
  | 3 => simp [scalarTypes, List.getD, Ty.good, StringType]
  | n + 4 => simp [scalarTypes, List.getD, Ty.good, BoolType]

theorem scalar_getD_gsize (i : Nat) : (scalarTypes.getD i BoolType).gsize ≤ 8 := by
  match i with
  | 0 => simp [scalarTypes, List.getD, Ty.gsize, BoolType]
  | 1 => simp [scalarTypes, List.getD, Ty.gsize, IntType]
  | 2 => simp [scalarTypes, List.getD, Ty.gsize, FloatType]
  | 3 => simp [scalarTypes, List.getD, Ty.gsize, StringType]
  | n + 4 => simp [scalarTypes, List.getD, Ty.gsize, BoolType]

theorem get?_isSome_of_lt {l : List α} (i : Nat) (h : i < l.length) :
    ∃ x, l.get? i = some x := by
  induction l generalizing i with
  | nil => simp at h
  | cons a t ih =>
    cases i with
    | zero => exact ⟨a, rfl⟩
    | succ j => exact ih j (by simpa using h)

theorem length_ne_zero_of_isEmpty_false {l : List α} (h : l.isEmpty = false) :
    l.length ≠ 0 := by
  cases l
  · simp [List.isEmpty] at h
  · simp

theorem allFuncs_wf (tab : SymbolTable) (hw : tab.wf = true) :
    ∀ fn ∈ tab.allFuncs, fn.wf = true := by
  intro fn hfn
  simp only [SymbolTable.wf, Bool.and_eq_true] at hw
  exact (List.all_eq_true.mp hw.2) fn hfn

theorem bucket_length_pos (tab : SymbolTable) (hw : tab.wf = true) (k : LitKind) :
    (tab.bucket k).length ≠ 0 := by
  simp only [SymbolTable.wf, Bool.and_eq_true, Bool.not_eq_true'] at hw
  obtain ⟨⟨⟨⟨hb, hi⟩, hf⟩, hs⟩, _⟩ := hw
  cases k with
  | bool => exact length_ne_zero_of_isEmpty_false hb
  | int => exact length_ne_zero_of_isEmpty_false hi
  | float => exact length_ne_zero_of_isEmpty_false hf
  | string => exact length_ne_zero_of_isEmpty_false hs

theorem all_take {p : α → Bool} {l : List α} (h : l.all p = true) (n : Nat) :
    (l.take n).all p = true := by
  rw [List.all_eq_true] at h ⊢
  intro x hx
  exact h x (List.take_subset n l hx)

theorem chan_indexMap_length_pos (ch : ChanId) :
    (mkIndexMap (chanOptions ch)).length ≠ 0 := by
  cases ch <;> decide

theorem chan_index_lt (ch : ChanId) :
    ∀ i ∈ mkIndexMap (chanOptions ch), i < (chanOptions ch).length := by
  cases ch <;> decide

theorem chan_all_ok (ch : ChanId) :
    ∀ o ∈ chanOptions ch, COpt.ok o = true := by
  cases ch <;> decide

/-- Totality: with a well-formed symbol table, every function of the
generator's mutual block succeeds (for generable type arguments) once
given fuel at least its termination measure — the shallow image of
the Go code terminating without a panic and, where the result must
not be nil, returning a non-nil node. -/
theorem gen_total : ∀ (fuel : Nat) (ctx : GenCtx), ctx.symtab.wf = true →
    (∀ (ty : Ty) (st : GenSt), ty.good = true →
       muGen ctx.symtab ty st ≤ fuel →
       (GenerateValueOfType fuel ctx ty st).isSome = true)
    ∧ (∀ (ch : ChanId) (st : GenSt),
       muChoose ctx.symtab st ≤ fuel → (chooseExpr fuel ctx ch st).isSome = true)
    ∧ (∀ (o : COpt) (st : GenSt), COpt.ok o = true →
       muFb ctx.symtab st ≤ fuel → (runOptionFb fuel ctx o st).isSome = true)
    ∧ (∀ (o : OptKind) (st : GenSt),
       muRun ctx.symtab o st ≤ fuel →
       ∃ (r : Option Node) (st' : GenSt), runGen fuel ctx o st = some (r, st')
         ∧ (genCanFail o = false → r.isSome = true))
    ∧ (∀ (fn : FuncType) (st : GenSt), fn.wf = true →
       muCall ctx.symtab fn st ≤ fuel → (callOfType fuel ctx fn st).isSome = true)
    ∧ (∀ (ps : List FuncParam) (st : GenSt),
       ps.all (fun p => p.type.good) = true →
       muArgs ctx.symtab ps st ≤ fuel → (genArgs fuel ctx ps st).isSome = true)
    ∧ (∀ (e : Ty) (st : GenSt), e.good = true →
       muArr ctx.symtab e st ≤ fuel → (arrayValue fuel ctx e st).isSome = true)
    ∧ (∀ (cnt : Nat) (e : Ty) (st : GenSt), e.good = true →
       muRepl ctx.symtab cnt e st ≤ fuel →
       (genReplicate fuel ctx cnt e st).isSome = true)
    ∧ (∀ (es : List Ty) (st : GenSt), tyGoodList es = true →
       muTup ctx.symtab es st ≤ fuel → (tupleValue fuel ctx es st).isSome = true)
    ∧ (∀ (es : List Ty) (st : GenSt), tyGoodList es = true →
       muList ctx.symtab es st ≤ fuel → (genList fuel ctx es st).isSome = true)
    ∧ (∀ (pa : Bool) (st : GenSt),
       muMix ctx.symtab st ≤ fuel → (mixedValue fuel ctx pa st).isSome = true) := by
  intro fuel
  induction fuel with
  | zero =>
    intro ctx hw
    refine ⟨fun ty st hg hmu => absurd hmu (by simp only [muGen]; omega),
            fun ch st hmu => absurd hmu (by simp only [muChoose]; omega),
            fun o st hok hmu => absurd hmu (by simp only [muFb]; omega),
            fun o st hmu => absurd hmu (by cases o <;> simp only [muRun] <;> omega),
            fun fn st hfw hmu => absurd hmu (by simp only [muCall]; omega),
            fun ps st hall hmu => absurd hmu (by simp only [muArgs]; omega),
            fun e st he hmu => absurd hmu (by simp only [muArr]; omega),
            fun cnt e st he hmu => absurd hmu (by simp only [muRepl]; omega),
            fun es st he hmu => absurd hmu (by simp only [muTup]; omega),
            fun es st he hmu => absurd hmu (by simp only [muList]; omega),
            fun pa st hmu => absurd hmu (by simp only [muMix]; omega)⟩
  | succ f ih =>
    intro ctx hw
    obtain ⟨ihG, ihC, ihF, ihR, ihCall, ihArgs, ihArr, ihRepl, ihTup, ihList, ihMix⟩ :=
      ih ctx hw
    have hM : Mc ctx.symtab = 8 * ctx.symtab.pMax + 1000 := rfl
    refine ⟨?_, ?_, ?_, ?_, ?_, ?_, ?_, ?_, ?_, ?_, ?_⟩
    -- GenerateValueOfType
    · intro ty st hg hmu
      cases ty with
      | scalar k =>
        cases k with
        | bool =>
          simp only [GenerateValueOfType]
          refine ihC .bool st ?_
          simp only [muGen] at hmu
          simp only [muChoose]
          omega
        | int =>
          simp only [GenerateValueOfType]
          refine ihC .int st ?_
          simp only [muGen] at hmu
          simp only [muChoose]
          omega
        | float =>
          simp only [GenerateValueOfType]
          refine ihC .float st ?_
          simp only [muGen] at hmu
          simp only [muChoose]
          omega
        | string =>
          simp only [GenerateValueOfType]
          refine ihC .string st ?_
          simp only [muGen] at hmu
          simp only [muChoose]
          omega
        | mixed =>
          simp only [GenerateValueOfType]
          refine ihMix true st ?_
          simp only [muGen, Ty.gsize_scalar_mixed] at hmu
          simp only [muMix]
          omega
      | enum vk vals =>
        simp only [GenerateValueOfType]
        simp only [Ty.good, Bool.and_eq_true] at hg
        obtain ⟨⟨hvk, hne⟩, hall⟩ := hg
        cases hF : (if ctx.sigma st.pos % 10 < 6
            then findVarOfType ctx.scope (Ty.enum vk vals) else none) with
        | some v => simp only [hF, Option.isSome_some]
        | none =>
          simp only [hF]
          have hlen : vals.length ≠ 0 := by
            cases vals
            · simp [List.isEmpty] at hne
            · simp
          obtain ⟨⟨vi, st2⟩, hI⟩ := Option.isSome_iff_exists.mp
            (intn_isSome ctx vals.length ⟨st.pos + 1, st.exprDepth⟩ hlen)
          simp only [hI]
          obtain ⟨hvi, _⟩ := intn_spec _ _ _ _ _ hI
          obtain ⟨v, hv⟩ := get?_isSome_of_lt vi hvi
          have hmatch : LitVal.matchesKind vk v = true :=
            (List.all_eq_true.mp hall) v (get?_mem hv)
          simp only [Bool.or_eq_true, decide_eq_true_eq] at hvk
          rcases hvk with (hk | hk) | hk <;> subst hk <;>
            cases v with
            | i a =>
              first
              | (simp only [hv]; rfl)
              | simp [LitVal.matchesKind] at hmatch
            | f a =>
              first
              | (simp only [hv]; rfl)
              | simp [LitVal.matchesKind] at hmatch
            | s a =>
              first
              | (simp only [hv]; rfl)
              | simp [LitVal.matchesKind] at hmatch
            | b a => simp [LitVal.matchesKind] at hmatch
      | array e =>
        simp only [GenerateValueOfType]
        simp only [Ty.good] at hg
        refine ihArr e st hg ?_
        simp only [muGen, Ty.gsize_array] at hmu
        simp only [muArr]
        by_cases hd : st.exprDepth ≤ 12
        · have hstep := bdgMc_step ctx.symtab st.exprDepth hd
          omega
        · have h0 : bdg st.exprDepth = 0 := by simp only [bdg]; omega
          have h0' : bdg (st.exprDepth + 1) = 0 := by simp only [bdg]; omega
          rw [h0] at hmu
          rw [h0']
          simp only [Nat.zero_mul] at hmu ⊢
          omega
      | tuple es =>
        simp only [GenerateValueOfType]
        simp only [Ty.good] at hg
        refine ihTup es st hg ?_
        simp only [muGen, Ty.gsize_tuple] at hmu
        simp only [muTup]
        by_cases hd : st.exprDepth ≤ 12
        · have hstep := bdgMc_step ctx.symtab st.exprDepth hd
          omega
        · have h0 : bdg st.exprDepth = 0 := by simp only [bdg]; omega
          have h0' : bdg (st.exprDepth + 1) = 0 := by simp only [bdg]; omega
          rw [h0] at hmu
          rw [h0']
          simp only [Nat.zero_mul] at hmu ⊢
          omega
    -- chooseExpr
    · intro ch st hmu
      rw [chooseExpr]
      split
      · rfl
      next hle =>
        obtain ⟨⟨probe, st2⟩, hI⟩ := Option.isSome_iff_exists.mp
          (intn_isSome ctx (mkIndexMap (chanOptions ch)).length st.bump
            (chan_indexMap_length_pos ch))
        simp only [hI]
        obtain ⟨hplt, hst2⟩ := intn_spec _ _ _ _ _ hI
        obtain ⟨i, hidx⟩ := get?_isSome_of_lt probe hplt
        simp only [hidx]
        obtain ⟨o, hopt⟩ := get?_isSome_of_lt i
          (chan_index_lt ch i (get?_mem hidx))
        simp only [hopt]
        have hok : COpt.ok o = true := chan_all_ok ch o (get?_mem hopt)
        have hd2 : st2.exprDepth = st.exprDepth + 1 := by rw [hst2]; rfl
        obtain ⟨⟨nf, st3⟩, hFb⟩ := Option.isSome_iff_exists.mp (ihF o st2 hok (by
          simp only [muChoose] at hmu
          simp only [muFb]
          rw [hd2]
          have hstep := bdgMc_step ctx.symtab st.exprDepth (by omega)
          omega))
        simp only [hFb]
        obtain ⟨⟨roll, st4⟩, hroll⟩ := Option.isSome_iff_exists.mp
          (intn_isSome ctx 10 st3 (by omega))
        simp only [hroll]
        rfl
    -- runOptionFb
    · intro o st hok hmu
      rw [runOptionFb]
      obtain ⟨r, st1, hG, hinner⟩ := ihR o.gen st (by
        simp only [muFb] at hmu
        simp only [muRun]
        split <;> omega)
      simp only [hG]
      cases r with
      | some n => rfl
      | none =>
        cases hcf : genCanFail o.gen with
        | false => exact absurd (hinner hcf) (by simp)
        | true =>
          have hsafe : fbSafe o.fb = true := by
            simp only [COpt.ok, hcf, Bool.not_true, Bool.false_or] at hok
            exact hok
          have hdep1 : st1.exprDepth = st.exprDepth :=
            ((gen_shape f ctx).2.2.2.1 o.gen st none st1 hG).1
          cases hfb : o.fb with
          | none => rw [hfb] at hsafe; simp [fbSafe] at hsafe
          | some fbk =>
            rw [hfb] at hsafe
            simp only [hfb]
            cases fbk with
            | litOf k2 =>
              obtain ⟨r2, st2, hG2, hin2⟩ := ihR (OptKind.litOf k2) st1 (by
                simp only [muFb] at hmu
                simp only [muRun]
                rw [hdep1]
                omega)
              simp only [hG2]
              have hr2 := hin2 rfl
              cases r2 with
              | some n2 => rfl
              | none => simp at hr2
            | interp =>
              obtain ⟨r2, st2, hG2, hin2⟩ := ihR OptKind.interp st1 (by
                simp only [muFb] at hmu
                simp only [muRun]
                rw [hdep1]
                omega)
              simp only [hG2]
              have hr2 := hin2 rfl
              cases r2 with
              | some n2 => rfl
              | none => simp at hr2
            | cmp op => exact absurd hsafe (by simp [fbSafe])
            | binary a b c => exact absurd hsafe (by simp [fbSafe])
            | binCast a b c d => exact absurd hsafe (by simp [fbSafe])
            | unary a b => exact absurd hsafe (by simp [fbSafe])
            | ternaryOf c => exact absurd hsafe (by simp [fbSafe])
            | varOf k2 => exact absurd hsafe (by simp [fbSafe])
            | callOf k2 => exact absurd hsafe (by simp [fbSafe])
            | negationInt => exact absurd hsafe (by simp [fbSafe])
            | castTo t2 => exact absurd hsafe (by simp [fbSafe])
            | strIndex => exact absurd hsafe (by simp [fbSafe])
    -- runGen
    · intro o st hmu
      cases o with
      | cmp op =>
        obtain ⟨⟨ti, st1⟩, hI⟩ := Option.isSome_iff_exists.mp
          (intn_isSome ctx scalarTypes.length st (by decide))
        obtain ⟨hti, hst1⟩ := intn_spec _ _ _ _ _ hI
        have hd1 : st1.exprDepth = st.exprDepth := by rw [hst1]
        have hgs := scalar_getD_gsize ti
        obtain ⟨⟨x, st2⟩, hx⟩ := Option.isSome_iff_exists.mp
          (ihG (scalarTypes.getD ti BoolType) st1 (scalar_getD_good ti) (by
            simp only [muRun] at hmu
            simp only [muGen]
            rw [hd1]
            omega))
        have hd2 : st2.exprDepth = st.exprDepth :=
          ((gen_shape f ctx).1 _ st1 x st2 hx).1.trans hd1
        obtain ⟨⟨y, st3⟩, hy⟩ := Option.isSome_iff_exists.mp
          (ihG (scalarTypes.getD ti BoolType) st2 (scalar_getD_good ti) (by
            simp only [muRun] at hmu
            simp only [muGen]
            rw [hd2]
            omega))
        simp only [runGen, hI, hx, hy]
        exact ⟨_, _, rfl, fun _ => rfl⟩
      | binary op hint chan =>
        obtain ⟨⟨x, st1⟩, hx⟩ := Option.isSome_iff_exists.mp (ihC chan st (by
          simp only [muRun] at hmu
          simp only [muChoose]
          omega))
        have hd1 : st1.exprDepth = st.exprDepth :=
          ((gen_shape f ctx).2.1 chan st x st1 hx).1
        obtain ⟨⟨y, st2⟩, hy⟩ := Option.isSome_iff_exists.mp (ihC chan st1 (by
          simp only [muRun] at hmu
          simp only [muChoose]
          rw [hd1]
          omega))
        simp only [runGen, hx, hy]
        exact ⟨_, _, rfl, fun _ => rfl⟩
      | binCast op hint castTy chan =>
        obtain ⟨⟨x, st1⟩, hx⟩ := Option.isSome_iff_exists.mp (ihC chan st (by
          simp only [muRun] at hmu
          simp only [muChoose]
          omega))
        have hd1 : st1.exprDepth = st.exprDepth :=
          ((gen_shape f ctx).2.1 chan st x st1 hx).1
        obtain ⟨⟨y, st2⟩, hy⟩ := Option.isSome_iff_exists.mp (ihC chan st1 (by
          simp only [muRun] at hmu
          simp only [muChoose]
          rw [hd1]
          omega))
        simp only [runGen, hx, hy]
        exact ⟨_, _, rfl, fun _ => rfl⟩
      | unary op chan =>
        obtain ⟨⟨x, st1⟩, hx⟩ := Option.isSome_iff_exists.mp (ihC chan st (by
          simp only [muRun] at hmu
          simp only [muChoose]
          omega))
        simp only [runGen, hx]
        exact ⟨_, _, rfl, fun _ => rfl⟩
      | ternaryOf c =>
        obtain ⟨⟨cond, st1⟩, hc⟩ := Option.isSome_iff_exists.mp (ihC .cond st (by
          simp only [muRun] at hmu
          simp only [muChoose]
          omega))
        have hd1 : st1.exprDepth = st.exprDepth :=
          ((gen_shape f ctx).2.1 .cond st cond st1 hc).1
        obtain ⟨⟨x, st2⟩, hx⟩ := Option.isSome_iff_exists.mp (ihC c st1 (by
          simp only [muRun] at hmu
          simp only [muChoose]
          rw [hd1]
          omega))
        have hd2 : st2.exprDepth = st.exprDepth :=
          ((gen_shape f ctx).2.1 c st1 x st2 hx).1.trans hd1
        obtain ⟨⟨y, st3⟩, hy⟩ := Option.isSome_iff_exists.mp (ihC c st2 (by
          simp only [muRun] at hmu
          simp only [muChoose]
          rw [hd2]
          omega))
        simp only [runGen, hc, hx, hy]
        exact ⟨_, _, rfl, fun _ => rfl⟩
      | litOf k =>
        simp only [runGen]
        exact ⟨_, _, rfl, fun _ => rfl⟩
      | varOf k =>
        simp only [runGen]
        exact ⟨_, _, rfl, fun hcf => by simp [genCanFail] at hcf⟩
      | callOf k =>
        obtain ⟨⟨fi, st1⟩, hI⟩ := Option.isSome_iff_exists.mp
          (intn_isSome ctx (ctx.symtab.bucket k).length st
            (bucket_length_pos ctx.symtab hw k))
        obtain ⟨hfi, hst1⟩ := intn_spec _ _ _ _ _ hI
        obtain ⟨fn, hfn⟩ := get?_isSome_of_lt fi hfi
        have hmem : fn ∈ ctx.symtab.allFuncs :=
          mem_bucket_allFuncs _ _ _ (get?_mem hfn)
        have hfw : fn.wf = true := allFuncs_wf ctx.symtab hw fn hmem
        have hps : paramsSum fn.params ≤ ctx.symtab.pMax :=
          paramsSum_le_pMax ctx.symtab fn hmem
        have hd1 : st1.exprDepth = st.exprDepth := by rw [hst1]
        obtain ⟨⟨n0, st2⟩, hcall⟩ := Option.isSome_iff_exists.mp
          (ihCall fn st1 hfw (by
            simp only [muRun] at hmu
            simp only [muCall]
            rw [hd1]
            omega))
        simp only [runGen, hI, hfn, hcall]
        exact ⟨_, _, rfl, fun _ => rfl⟩
      | negationInt =>
        obtain ⟨⟨x, st1⟩, hx⟩ := Option.isSome_iff_exists.mp (ihC .int st (by
          simp only [muRun] at hmu
          simp only [muChoose]
          omega))
        simp only [runGen, hx]
        exact ⟨_, _, rfl, fun _ => rfl⟩
      | castTo t =>
        obtain ⟨⟨a, st1⟩, ha⟩ := Option.isSome_iff_exists.mp (ihMix false st (by
          simp only [muRun] at hmu
          simp only [muMix]
          omega))
        simp only [runGen, ha]
        exact ⟨_, _, rfl, fun _ => rfl⟩
      | interp =>
        simp only [runGen]
        exact ⟨_, _, rfl, fun _ => rfl⟩
      | strIndex =>
        cases hFv : findVarOfType ctx.scope StringType with
        | none =>
          simp only [runGen, hFv]
          exact ⟨_, _, rfl, fun hcf => by simp [genCanFail] at hcf⟩
        | some lv =>
          obtain ⟨⟨r, st1⟩, hIR⟩ := Option.isSome_iff_exists.mp
            (intRange_isSome ctx 0 10 st (by omega))
          obtain ⟨_, _, hst1⟩ := intRange_spec _ _ _ _ _ _ hIR
          have hd1 : st1.exprDepth = st.exprDepth := by rw [hst1]
          by_cases hr : r > 2
          · obtain ⟨⟨key, st2⟩, hkey⟩ := Option.isSome_iff_exists.mp
              (ihC .int st1 (by
                simp only [muRun] at hmu
                simp only [muChoose]
                rw [hd1]
                omega))
            simp only [runGen, hFv, hIR, if_pos hr, hkey]
            exact ⟨_, _, rfl, fun hcf => by simp [genCanFail] at hcf⟩
          · simp only [runGen, hFv, hIR, if_neg hr]
            exact ⟨_, _, rfl, fun hcf => by simp [genCanFail] at hcf⟩
    -- callOfType
    · intro fn st hfw hmu
      simp only [FuncType.wf, Bool.and_eq_true, decide_eq_true_eq] at hfw
      obtain ⟨hlen, hall⟩ := hfw
      obtain ⟨⟨numArgs, st2⟩, hIR⟩ := Option.isSome_iff_exists.mp
        (intRange_isSome ctx fn.minArgsNum fn.params.length st.bump hlen)
      obtain ⟨_, _, hst2⟩ := intRange_spec _ _ _ _ _ _ hIR
      have hd2 : st2.exprDepth = st.exprDepth + 1 := by rw [hst2]; rfl
      obtain ⟨⟨args, st3⟩, hA⟩ := Option.isSome_iff_exists.mp
        (ihArgs (fn.params.take numArgs) st2 (all_take hall numArgs) (by
          simp only [muCall] at hmu
          simp only [muArgs]
          rw [hd2]
          have htake := paramsSum_take_le fn.params numArgs
          by_cases hd : st.exprDepth ≤ 12
          · have hstep := bdgMc_step ctx.symtab st.exprDepth hd
            omega
          · have h0 : bdg st.exprDepth = 0 := by simp only [bdg]; omega
            have h0' : bdg (st.exprDepth + 1) = 0 := by simp only [bdg]; omega
            rw [h0] at hmu
            rw [h0']
            simp only [Nat.zero_mul] at hmu ⊢
            omega))
      simp only [callOfType, hIR, hA]
      rfl
    -- genArgs
    · intro ps st hall hmu
      cases ps with
      | nil => rw [genArgs]; rfl
      | cons p pt =>
        simp only [List.all_cons, Bool.and_eq_true] at hall
        obtain ⟨hp, hpt⟩ := hall
        obtain ⟨⟨a, st1⟩, hGa⟩ := Option.isSome_iff_exists.mp (ihG p.type st hp (by
          simp only [muArgs, paramsSum_cons] at hmu
          simp only [muGen]
          omega))
        have hd1 : st1.exprDepth = st.exprDepth :=
          ((gen_shape f ctx).1 p.type st a st1 hGa).1
        obtain ⟨⟨rest, st2⟩, hR⟩ := Option.isSome_iff_exists.mp (ihArgs pt st1 hpt (by
          simp only [muArgs, paramsSum_cons] at hmu
          simp only [muArgs]
          rw [hd1]
          omega))
        simp only [genArgs, hGa, hR]
        rfl
    -- arrayValue
    · intro e st he hmu
      obtain ⟨⟨numElems, st2⟩, hIR⟩ := Option.isSome_iff_exists.mp
        (intRange_isSome ctx 1 (if st.bump.exprDepth ≥ 10 then 2 else 4) st.bump
          (by split <;> omega))
      obtain ⟨hlo, hhi, hst2⟩ := intRange_spec _ _ _ _ _ _ hIR
      have hd2 : st2.exprDepth = st.exprDepth + 1 := by rw [hst2]; rfl
      have hn4 : numElems ≤ 4 := le_trans hhi (by split <;> omega)
      obtain ⟨⟨elems, st3⟩, hRep⟩ := Option.isSome_iff_exists.mp
        (ihRepl numElems e st2 he (by
          simp only [muArr] at hmu
          simp only [muRepl]
          rw [hd2]
          omega))
      simp only [arrayValue, hIR, hRep]
      rfl
    -- genReplicate
    · intro cnt e st he hmu
      cases cnt with
      | zero => rw [genReplicate]; rfl
      | succ m =>
        obtain ⟨⟨x, st1⟩, hx⟩ := Option.isSome_iff_exists.mp (ihG e st he (by
          simp only [muRepl] at hmu
          simp only [muGen]
          omega))
        have hd1 : st1.exprDepth = st.exprDepth :=
          ((gen_shape f ctx).1 e st x st1 hx).1
        obtain ⟨⟨xs, st2⟩, hR⟩ := Option.isSome_iff_exists.mp (ihRepl m e st1 he (by
          simp only [muRepl] at hmu
          simp only [muRepl]
          rw [hd1]
          omega))
        simp only [genReplicate, hx, hR]
        rfl
    -- tupleValue
    · intro es st he hmu
      obtain ⟨⟨ns, st2⟩, hL⟩ := Option.isSome_iff_exists.mp (ihList es st.bump he (by
        simp only [muTup] at hmu
        simp only [muList]
        have hb : (st.bump).exprDepth = st.exprDepth + 1 := rfl
        rw [hb]
        omega))
      simp only [tupleValue, hL]
      rfl
    -- genList
    · intro es st he hmu
      cases es with
      | nil => rw [genList]; rfl
      | cons t ts =>
        simp only [tyGoodList, Bool.and_eq_true] at he
        obtain ⟨ht, hts⟩ := he
        obtain ⟨⟨x, st1⟩, hx⟩ := Option.isSome_iff_exists.mp (ihG t st ht (by
          simp only [muList, gsizeList_cons] at hmu
          simp only [muGen]
          omega))
        have hd1 : st1.exprDepth = st.exprDepth :=
          ((gen_shape f ctx).1 t st x st1 hx).1
        obtain ⟨⟨xs, st2⟩, hR⟩ := Option.isSome_iff_exists.mp (ihList ts st1 hts (by
          simp only [muList, gsizeList_cons] at hmu
          simp only [muList]
          rw [hd1]
          omega))
        simp only [genList, hx, hR]
        rfl
    -- mixedValue
    · intro pa st hmu
      obtain ⟨⟨r, st1⟩, hIR⟩ := Option.isSome_iff_exists.mp
        (intRange_isSome ctx 0 (if st.exprDepth >= 10 || !pa then 3 else 4) st
          (by split <;> omega))
      obtain ⟨hlo, hhi, hst1⟩ := intRange_spec _ _ _ _ _ _ hIR
      have hd1 : st1.exprDepth = st.exprDepth := by rw [hst1]
      have hmc : muChoose ctx.symtab st1 ≤ f := by
        simp only [muMix] at hmu
        simp only [muChoose]
        rw [hd1]
        omega
      simp only [mixedValue, hIR]
      by_cases hr0 : r = 0
      · rw [if_pos hr0]
        exact ihC .bool st1 hmc
      rw [if_neg hr0]
      by_cases hr1 : r = 1
      · rw [if_pos hr1]
        exact ihC .int st1 hmc
      rw [if_neg hr1]
      by_cases hr2 : r = 2
      · rw [if_pos hr2]
        exact ihC .float st1 hmc
      rw [if_neg hr2]
      by_cases hr3 : r = 3
      · rw [if_pos hr3]
        exact ihC .string st1 hmc
      rw [if_neg hr3]
      by_cases hr4 : r = 4
      · rw [if_pos hr4]
        have hd10 : st.exprDepth < 10 := by
          by_contra hge
          have hdt : decide (st.exprDepth ≥ 10) = true := decide_eq_true (by omega)
          rw [hdt] at hhi
          simp only [Bool.true_or, if_pos] at hhi
          omega
        obtain ⟨⟨ti, st2⟩, hti⟩ := Option.isSome_iff_exists.mp
          (intn_isSome ctx scalarTypes.length st1 (by decide))
        obtain ⟨_, hst2⟩ := intn_spec _ _ _ _ _ hti
        have hd2 : st2.exprDepth = st.exprDepth := by rw [hst2, hd1]
        simp only [hti]
        refine ihArr (scalarTypes.getD ti BoolType) st2 (scalar_getD_good ti) ?_
        have hgs := scalar_getD_gsize ti
        simp only [muMix] at hmu
        simp only [muArr]
        rw [hd2]
        have hstep := bdgMc_step ctx.symtab st.exprDepth (by omega)
        omega
      · exfalso
        have hle4 : r ≤ 4 := le_trans hhi (by split <;> omega)
        omega

/-! ## C4: non-failure needs a well-formed symbol table -/

/-- C4: as stated the claim is false for an arbitrary run
configuration: with an empty symbol table a stream whose first draw
lands on the int channel's call option (probe 17) makes
`GenerateValueOfType` panic (`rand.Intn(0)` on the empty bucket),
modelled as `none` — the failure is genuine and not fuel exhaustion,
as `gen_total` below shows it cannot happen once the buckets are
non-empty. -/
theorem C4_counterexample :
    (GenerateValueOfType 50 ⟨sigOf [17], [], emptySymtab⟩ IntType ⟨0, 0⟩).isNone
      = true := by
  decide

/-- C4 (amended): termination and non-failure hold under the
conditions the surrounding program establishes — every symbol-table
bucket is non-empty with well-formed functions, and the requested
type is one `PickType` can build.  Then for any PRNG stream and any
start state the generator returns a node, with fuel witnessing the
termination bound; in particular the `chooseExpr` retry loop exits
on the first iteration, because every drawn option either cannot
return nil or carries an infallible fallback. -/
theorem C4_generator_total (ctx : GenCtx) (ty : Ty) (st : GenSt) (fuel : Nat)
    (hw : ctx.symtab.wf = true) (hg : ty.good = true)
    (hf : muGen ctx.symtab ty st ≤ fuel) :
    ∃ (n : Node) (st' : GenSt), GenerateValueOfType fuel ctx ty st = some (n, st') := by
  obtain ⟨⟨n, st'⟩, h⟩ := Option.isSome_iff_exists.mp
    ((gen_total fuel ctx hw).1 ty st hg hf)
  exact ⟨n, st', h⟩

theorem C4_generator_total_witness :
    ∃ (n : Node) (st' : GenSt),
      GenerateValueOfType (muGen unitSymtab IntType ⟨0, 0⟩)
        ⟨sigOf [17], [], unitSymtab⟩ IntType ⟨0, 0⟩ = some (n, st') :=
  C4_generator_total ⟨sigOf [17], [], unitSymtab⟩ IntType ⟨0, 0⟩ _
    (by decide) (by simp [IntType, Ty.good]) (le_refl _)

end Phpsmith
